import Mathlib

/-!
Verification development for the media track inspection & remux pipeline of
HanamiRIP-CN (`src/apps/desktop/backend/src/services/media/mod.rs`).

The Rust code is shallowly embedded: pure computations become Lean functions,
filesystem and external-process effects are modelled by oracles carried in an
environment record, and every function that performs effects returns its
result together with the list of observable events it emitted, in order.

Strings are modelled by Lean `String`; Rust string routines that the code uses
(`trim`, `to_lowercase`, `starts_with`, `split`, `replace`) are re-implemented
below on the underlying character lists so that all definitions evaluate
inside the kernel.  They agree with the Rust routines on ASCII data, which is
all the claims concern (Rust `to_lowercase`/`is_whitespace` additionally map
some non-ASCII code points).
-/

namespace HanamiMedia

/-- Whitespace predicate: the ASCII code points of Rust's `char::is_whitespace`. -/
def rustIsWhitespace (c : Char) : Bool :=
  c = ' ' || c = '\t' || c = '\n' || c = '\r' || c = '\x0b' || c = '\x0c'

/-- Model of Rust `str::trim`: drop leading and trailing whitespace. -/
def rustTrim (s : String) : String :=
  ⟨((s.data.dropWhile rustIsWhitespace).reverse.dropWhile rustIsWhitespace).reverse⟩

/-- Model of Rust `str::to_lowercase` (ASCII range). -/
def rustToLower (s : String) : String :=
  ⟨s.data.map Char.toLower⟩

/-- Model of Rust `str::starts_with`. -/
def rustStartsWith (pre s : String) : Bool :=
  pre.data.isPrefixOf s.data

/-- Join a list of strings with a separator, as Rust `Vec::join`. -/
def joinStr (sep : String) : List String → String
  | [] => ""
  | [x] => x
  | x :: xs => x ++ sep ++ joinStr sep xs

/-! ### Byte-size formatting (`format_bytes_readable`, mod.rs lines 120-133)

The Rust function converts `bytes` to `f64` and repeatedly divides by
`1024.0` while the value is `>= 1024.0` and the unit index is below the last
unit.  Division of an IEEE double by `1024 = 2 ^ 10` only decrements the
exponent, so after `idx` iterations the float holds exactly the rational
number `bytes / 1024 ^ idx` (for `bytes < 2 ^ 53` the initial conversion is
also exact; for larger inputs the conversion rounds, which cannot change on
which side of any power-of-1024 threshold the value lies, hence never the
chosen unit).  The embedding therefore carries the pair `(bytes, idx)` as the
exact value of the float and phrases the loop guard `size >= 1024.0` as
`1024 ^ (idx + 1) <= bytes`. -/

/-- The `UNITS` array of `format_bytes_readable`. -/
def UNITS : List String := ["B", "KB", "MB", "GB", "TB"]

/-- Indexing into `UNITS` (in Rust, `UNITS[idx]`; the index is always in
bounds because the loop keeps `idx < UNITS.len() - 1`). -/
def unitsAt (idx : Nat) : String := UNITS.getD idx "TB"

/-- The division loop of `format_bytes_readable`: starting from
`size = bytes` and `idx = 0`, divide by 1024 while `size >= 1024` and
`idx < UNITS.len() - 1`, and return the final unit index.  The loop body can
run at most `UNITS.len() - 1` times, which the fuel argument reflects. -/
def sizeLoopIdx : Nat → Nat → Nat → Nat
  | 0, _, idx => idx
  | fuel + 1, bytes, idx =>
    if 1024 ^ (idx + 1) ≤ bytes ∧ idx < UNITS.length - 1 then
      sizeLoopIdx fuel bytes (idx + 1)
    else idx

/-- Round `num / den` to the nearest integer, ties to even: the rounding Rust
`format!` with a fixed precision applies to the (here exactly represented)
binary value. -/
def roundHalfToEven (num den : Nat) : Nat :=
  let q := num / den
  let r := num % den
  if 2 * r < den then q
  else if den < 2 * r then q + 1
  else if q % 2 = 0 then q else q + 1

/-- Render a natural number as two decimal digits, zero-padded. -/
def pad2 (n : Nat) : String :=
  if n < 10 then "0" ++ Nat.repr n else Nat.repr n

/-- Render the exact value `num / den` with two decimal places, as Rust
`format!("{:.2}", size)` does for the float holding that value. -/
def fmtFixed2 (num den : Nat) : String :=
  let scaled := roundHalfToEven (num * 100) den
  Nat.repr (scaled / 100) ++ "." ++ pad2 (scaled % 100)

/-- Model of `format_bytes_readable` (mod.rs lines 120-133).  `idx` is the
unit index the division loop ends with; the remaining float value is exactly
`bytes / 1024 ^ idx`. -/
def format_bytes_readable (bytes : Nat) : String :=
  let idx := sizeLoopIdx (UNITS.length - 1) bytes 0
  if idx = 0 then Nat.repr bytes ++ " " ++ unitsAt idx
  else fmtFixed2 bytes (1024 ^ idx) ++ " " ++ unitsAt idx

/-! ### Path extension extraction and analyzer backend selection
(`parse_media_tracks`, mod.rs lines 239-249 and 326-336)

`Path::new(&path).extension()` for Unix-style paths: the file name is the
last normal component (`.` components and empty components are skipped, a
final `..` has no file name), and the extension is the part of the file name
after its last `.`, except that a file name beginning with its only `.` has
none.  Paths with trailing separators are not used by the claims. -/

/-- Split a character list at every occurrence of a separator. -/
def splitOnChar (sep : Char) : List Char → List (List Char)
  | [] => [[]]
  | c :: rest =>
    match splitOnChar sep rest with
    | [] => [[c]]
    | g :: gs => if c = sep then [] :: g :: gs else (c :: g) :: gs

/-- Model of `Path::file_name` for Unix-style paths. -/
def fileNameOf (p : String) : Option String :=
  let comps := (splitOnChar '/' p.data).filter (fun c => !c.isEmpty && !(c == ['.']))
  match comps.getLast? with
  | none => none
  | some c => if c == ['.', '.'] then none else some ⟨c⟩

/-- Scan the reversed file name for its last `.`; `acc` collects the
characters after that dot in original order. -/
def extAux : List Char → List Char → Option String
  | [], _ => none
  | '.' :: rest, acc => if rest.isEmpty then none else some ⟨acc⟩
  | c :: rest, acc => extAux rest (c :: acc)

/-- Model of `Path::extension` for Unix-style paths. -/
def extensionOf (p : String) : Option String :=
  (fileNameOf p).bind (fun name => extAux name.data.reverse [])

/-- One analyzer invocation: which external tool `parse_media_tracks` spawns,
with its argument list. -/
inductive AnalyzerCall where
  | mkvmergeProbe (args : List String)
  | ffprobeProbe (args : List String)
deriving DecidableEq, Repr

/-- Backend selection of `parse_media_tracks`: lower-case the extension
(`unwrap_or("")`), route `mkv`/`mka`/`mks` to `mkvmerge -J <path>` and
everything else to
`ffprobe -v error -print_format json -show_format -show_streams <path>`. -/
def probe_backend_args (path : String) : AnalyzerCall :=
  let ext := rustToLower ((extensionOf path).getD "")
  if (["mkv", "mka", "mks"] : List String).contains ext then
    .mkvmergeProbe ["-J", path]
  else
    .ffprobeProbe ["-v", "error", "-print_format", "json", "-show_format", "-show_streams", path]

/-! ### Decoded analyzer reports and track normalization
(mod.rs lines 8-133 for the shapes, 162-230 for helpers, 232-400 for the
mapping).  The structures mirror the serde-decoded JSON shapes; every field
the JSON may omit is an `Option`.  `audio_sampling_frequency` is an `f64` in
the source and is modelled as an exact rational. -/

/-- Normalized track record returned to the caller (`TrackInfoResponse`). -/
structure TrackInfoResponse where
  track_id : String
  codec : String
  lang : Option String
  language_name : Option String
  track_name : Option String
  is_default : Option Bool
  is_forced : Option Bool
  charset : Option String
  attributes : Option String
  container : Option String
  file_size : Option String
deriving DecidableEq, Repr

/-- Probe result wrapper (`TrackParseResponse`). -/
structure TrackParseResponse where
  tracks : List TrackInfoResponse
deriving DecidableEq, Repr

/-- Decoded `mkvmerge -J` container properties. -/
structure MkvmergeContainerProperties where
  file_size : Option Nat := none
deriving DecidableEq, Repr

/-- Decoded `mkvmerge -J` container section. -/
structure MkvmergeContainer where
  type : Option String := none
  properties : Option MkvmergeContainerProperties := none
deriving DecidableEq, Repr

/-- Decoded `mkvmerge -J` per-track properties. -/
structure MkvmergeTrackProperties where
  language : Option String := none
  language_ietf : Option String := none
  track_name : Option String := none
  default_track : Option Bool := none
  forced_track : Option Bool := none
  codec_name : Option String := none
  codec_id : Option String := none
  encoding : Option String := none
  pixel_dimensions : Option String := none
  audio_channels : Option Nat := none
  audio_sampling_frequency : Option ℚ := none
deriving DecidableEq, Repr

/-- Decoded `mkvmerge -J` track. -/
structure MkvmergeTrack where
  id : Nat
  type : Option String := none
  codec : Option String := none
  properties : Option MkvmergeTrackProperties := none
deriving DecidableEq, Repr

/-- Decoded `mkvmerge -J` report. -/
structure MkvmergeOutput where
  container : Option MkvmergeContainer := none
  tracks : Option (List MkvmergeTrack) := none
deriving DecidableEq, Repr

/-- Decoded ffprobe format section. -/
structure FFProbeFormat where
  format_name : Option String := none
  size : Option String := none
deriving DecidableEq, Repr

/-- Decoded ffprobe disposition flags. -/
structure FFProbeDisposition where
  default : Option Int := none
  forced : Option Int := none
deriving DecidableEq, Repr

/-- Decoded ffprobe stream tags. -/
structure FFProbeStreamTags where
  language : Option String := none
  title : Option String := none
  encoding : Option String := none
  charset : Option String := none
deriving DecidableEq, Repr

/-- Decoded ffprobe stream. -/
structure FFProbeStream where
  index : Option Nat := none
  codec_name : Option String := none
  codec_type : Option String := none
  width : Option Nat := none
  height : Option Nat := none
  r_frame_rate : Option String := none
  channels : Option Nat := none
  channel_layout : Option String := none
  disposition : Option FFProbeDisposition := none
  tags : Option FFProbeStreamTags := none
deriving DecidableEq, Repr

/-- Decoded ffprobe report. -/
structure FFProbeOutput where
  streams : Option (List FFProbeStream) := none
  format : Option FFProbeFormat := none
deriving DecidableEq, Repr

/-- Model of `map_language_name` (mod.rs lines 162-187).  The Rust `match` on
the normalized code is rendered as the equivalent chain of equality tests. -/
def map_language_name (code : String) : Option String :=
  let normalized := rustToLower (rustTrim code)
  if rustStartsWith "zh-hans" normalized then some "简体中文"
  else if rustStartsWith "zh-hant" normalized || rustStartsWith "zh-hk" normalized
      || rustStartsWith "zh-mo" normalized then some "繁体中文"
  else
    let name :=
      if normalized = "jpn" ∨ normalized = "ja" then "日语"
      else if normalized = "eng" ∨ normalized = "en" then "英语"
      else if normalized = "chi" ∨ normalized = "zho" ∨ normalized = "zh" then "中文"
      else if normalized = "chs" ∨ normalized = "zh-cn" ∨ normalized = "cmn" then "简体中文"
      else if normalized = "cht" ∨ normalized = "zh-tw" then "繁体中文"
      else if normalized = "kor" ∨ normalized = "ko" then "韩语"
      else if normalized = "fra" ∨ normalized = "fr" then "法语"
      else if normalized = "deu" ∨ normalized = "ger" ∨ normalized = "de" then "德语"
      else if normalized = "spa" ∨ normalized = "es" then "西班牙语"
      else ""
    if name = "" then none else some name

/-- Model of `build_attributes` (mod.rs lines 189-213) for ffprobe streams. -/
def build_attributes (stream : FFProbeStream) : Option String :=
  if stream.codec_type = some "video" then
    let parts :=
      (match stream.width, stream.height with
        | some w, some h => [Nat.repr w ++ "x" ++ Nat.repr h]
        | _, _ => []) ++
      (match stream.r_frame_rate with
        | some rate => if rate ≠ "0/0" then [rate] else []
        | none => [])
    if parts.isEmpty then none else some (joinStr " " parts)
  else if stream.codec_type = some "audio" then
    let parts :=
      (match stream.channels with
        | some ch => [Nat.repr ch ++ "ch"]
        | none => []) ++
      (match stream.channel_layout with
        | some layout => [layout]
        | none => [])
    if parts.isEmpty then none else some (joinStr " " parts)
  else stream.tags.bind (fun t => t.title)

/-- Model of `build_mkvmerge_attributes` (mod.rs lines 215-230); the sampling
frequency is printed rounded (`freq.round() as u64`). -/
def build_mkvmerge_attributes (props : MkvmergeTrackProperties) (kind : String) : Option String :=
  if kind = "video" then props.pixel_dimensions
  else if kind = "audio" then
    let parts :=
      (match props.audio_channels with
        | some ch => [Nat.repr ch ++ "ch"]
        | none => []) ++
      (match props.audio_sampling_frequency with
        | some freq => [Nat.repr (round freq).toNat ++ " Hz"]
        | none => [])
    if parts.isEmpty then none else some (joinStr " " parts)
  else none

/-- Track-kind filter of the Matroska branch (mod.rs lines 276-282): subtitle
requests accept both `subtitles` and `subtitle` type strings. -/
def mkvKindFilter (kind_lower : String) (track : MkvmergeTrack) : Bool :=
  let track_type := track.type.getD ""
  if kind_lower = "subtitle" then track_type = "subtitles" || track_type = "subtitle"
  else track_type = kind_lower

/-- Per-track mapping of the Matroska branch (mod.rs lines 283-320). -/
def mkv_track_to_response (kind_lower : String) (container file_size : Option String)
    (track : MkvmergeTrack) : TrackInfoResponse :=
  let props := track.properties.getD {}
  let lang := props.language_ietf.or props.language
  let language_name := lang.bind map_language_name
  let codec := ((props.codec_name.or track.codec).or props.codec_id).getD "unknown"
  { track_id := Nat.repr track.id
    codec
    lang
    language_name
    track_name := props.track_name
    is_default := props.default_track
    is_forced := props.forced_track
    charset := props.encoding
    attributes := build_mkvmerge_attributes props kind_lower
    container
    file_size }

/-- Tracks returned by the Matroska branch of `parse_media_tracks` after a
successful JSON decode (mod.rs lines 261-323): filter the (possibly absent)
track list by kind, then normalize each survivor. -/
def mkv_tracks_of_output (kind_lower : String) (parsed : MkvmergeOutput) :
    List TrackInfoResponse :=
  let container := parsed.container.bind (fun c => c.type)
  let file_size := (parsed.container.bind (fun c =>
    c.properties.bind (fun p => p.file_size))).map format_bytes_readable
  ((parsed.tracks.getD []).filter (mkvKindFilter kind_lower)).map
    (mkv_track_to_response kind_lower container file_size)

/-- Model of Rust `str::parse::<u64>()`: optional leading `+`, at least one
ASCII digit, value below `2 ^ 64`. -/
def parseU64 (s : String) : Option Nat :=
  let cs := match s.data with
    | '+' :: rest => rest
    | cs => cs
  if cs.isEmpty then none
  else if cs.all Char.isDigit then
    let n := cs.foldl (fun a c => 10 * a + (c.toNat - 48)) 0
    if n < 2 ^ 64 then some n else none
  else none

/-- Tracks returned by the generic (ffprobe) branch of `parse_media_tracks`
after a successful JSON decode (mod.rs lines 349-399). -/
def ffprobe_tracks_of_output (kind_lower : String) (parsed : FFProbeOutput) :
    List TrackInfoResponse :=
  let container := parsed.format.bind (fun f => f.format_name)
  let file_size := ((parsed.format.bind (fun f => f.size)).bind parseU64).map
    format_bytes_readable
  ((parsed.streams.getD []).filter (fun stream => stream.codec_type == some kind_lower)).map
    (fun stream =>
      let lang := stream.tags.bind (fun t => t.language)
      let language_name := lang.bind map_language_name
      let track_name := stream.tags.bind (fun t => t.title)
      let charset := stream.tags.bind (fun t => t.charset.or t.encoding)
      let codec := stream.codec_name.getD "unknown"
      let disposition := stream.disposition.getD {}
      { track_id := Nat.repr (stream.index.getD 0)
        codec
        lang
        language_name
        track_name
        is_default := disposition.default.map (fun v => v == 1)
        is_forced := disposition.forced.map (fun v => v == 1)
        charset
        attributes := build_attributes stream
        container
        file_size })

/-! ### The mix pipeline (`mix_media_tracks`, mod.rs lines 408-635)

Effects are modelled explicitly.  `MixEnv` packages the oracles for the
ambient world: which paths exist, what `fs::create_dir_all` and
`fs::remove_file` would return, how tool resolution and the application data
directory lookup turn out, the millisecond timestamp
`chrono::Utc::now().timestamp_millis()` observed by this call, and the
outcome of spawning `mkvmerge` on a given argument list.  The pipeline
returns its `Result` together with the ordered list of events it performed:
directory creations, Stage 1 build invocations, the Stage 2 combine
invocation, and file removals. -/

/-- Raw per-entry mix selection (`MixTrackInput`); the `track_langs` hash map
is modelled as an association list without duplicate keys. -/
structure MixTrackInput where
  path : String
  kind : String
  track_ids : List String
  track_langs : List (String × String)
deriving DecidableEq, Repr

/-- Hash-map insertion on an association list: overwrite the binding if the
key is present, append it otherwise. -/
def hmInsert {α : Type} (m : List (String × α)) (k : String) (v : α) :
    List (String × α) :=
  if (List.lookup k m).isSome then
    m.map (fun p => if p.1 = k then (k, v) else p)
  else m ++ [(k, v)]

/-- Outcome of one `mkvmerge` process invocation, as observed by
`Command::output().await`. -/
inductive ToolOutcome where
  | spawnFailed (msg : String)
  | exited (success : Bool) (code : Option Int) (stdout stderr : String)
deriving DecidableEq, Repr

/-- Observable events of one mix call, in program order. -/
inductive MixEvent where
  | createDirAll (path : String)
  | buildCall (kind : String) (args : List String)
  | combineCall (args : List String)
  | removeFile (path : String)
deriving DecidableEq, Repr

/-- Environment of one mix call; see the section comment. -/
structure MixEnv where
  fsExists : String → Bool
  mkdirResult : String → Option String
  resolveMkvmerge : Except String Unit
  appDataDir : Except String String
  timestampMillis : Int
  runTool : List String → ToolOutcome
  removeResult : String → Option String

/-- Model of `lang_for_kind` (mod.rs lines 430-437). -/
def lang_for_kind (kind : String) : String :=
  if kind = "video" then "ja"
  else if kind = "audio" then "ja"
  else if kind = "subtitle" then "zh-Hans"
  else "und"

/-- Model of `format_arg` (mod.rs lines 439-445): quote an argument for the
diagnostic command line when it contains whitespace or a quote. -/
def format_arg (arg : String) : String :=
  if arg.data.contains ' ' || arg.data.contains '\t' || arg.data.contains '"' then
    "\"" ++ ⟨arg.data.flatMap (fun c => if c = '"' then ['\\', '"'] else [c])⟩ ++ "\""
  else arg

/-- Model of `build_cmdline` (mod.rs lines 447-454). -/
def build_cmdline (args : List String) : String :=
  joinStr " " (format_arg "mkvmerge" :: args.map format_arg)

/-- Debug rendering of `Option<i32>` as Rust `{:?}` prints it. -/
def optCodeRepr : Option Int → String
  | some c => "Some(" ++ toString c ++ ")"
  | none => "None"

/-- Model of `run_mkvmerge` (mod.rs lines 456-475): spawn failure and
non-zero exit each produce the corresponding error string. -/
def run_mkvmerge (runTool : List String → ToolOutcome) (args : List String) :
    Except String Unit :=
  match runTool args with
  | .spawnFailed e => .error ("调用 mkvmerge 失败: " ++ e)
  | .exited success code stdout stderr =>
    if success then .ok ()
    else .error ("mkvmerge 执行失败 (code " ++ optCodeRepr code ++ "): "
      ++ rustTrim stdout ++ " " ++ rustTrim stderr ++ "\n命令: " ++ build_cmdline args)

/-- The trimmed, blank-free track-id list of one raw selection
(mod.rs lines 486-491). -/
def survivingIds (input : MixTrackInput) : List String :=
  (input.track_ids.map rustTrim).filter (fun id => id ≠ "")

/-- Error string for a kind with two different source paths. -/
def conflict_error (kind : String) : String := "同一类型只支持一个文件：" ++ kind

/-- The map entry written for one surviving selection (mod.rs lines 496-512):
the existing consolidated entry for its kind (or a fresh one carrying the
trimmed path) with the new ids merged order-preserving and de-duplicated and
the language overrides inserted, later entries winning. -/
def stepEntry (acc : List (String × MixTrackInput)) (input : MixTrackInput) :
    MixTrackInput :=
  let path := rustTrim input.path
  let kind_lower := rustToLower input.kind
  let entry := (List.lookup kind_lower acc).getD
    { path := path, kind := kind_lower, track_ids := [], track_langs := [] }
  { entry with
    track_ids := (survivingIds input).foldl
      (fun cur id => if cur.contains id then cur else cur ++ [id]) entry.track_ids
    track_langs := input.track_langs.foldl
      (fun m kv => hmInsert m kv.1 kv.2) entry.track_langs }

/-- The grouping/validation loop of `mix_media_tracks`
(mod.rs lines 477-513): walk the raw selections in order, validating each
path, skipping entries whose id list trims to nothing, and folding survivors
into the per-kind map `acc`. -/
def groupLoop (fsExists : String → Bool) (acc : List (String × MixTrackInput)) :
    List MixTrackInput → Except String (List (String × MixTrackInput))
  | [] => .ok acc
  | input :: rest =>
    let path := rustTrim input.path
    if path = "" then .error "轨道文件路径为空"
    else if fsExists path = false then .error ("轨道文件不存在: " ++ path)
    else if (survivingIds input).isEmpty then groupLoop fsExists acc rest
    else
      let kind_lower := rustToLower input.kind
      let entry := (List.lookup kind_lower acc).getD
        { path := path, kind := kind_lower, track_ids := [], track_langs := [] }
      if entry.path ≠ path then .error (conflict_error kind_lower)
      else groupLoop fsExists (hmInsert acc kind_lower (stepEntry acc input)) rest

/-- Default output extension (mod.rs lines 418-421): append `.mkv` when the
output path has no extension (a no-op when it has no file name, as
`PathBuf::set_extension` then returns false). -/
def withDefaultExt (p : String) : String :=
  if (extensionOf p).isNone then
    if (fileNameOf p).isNone then p else p ++ ".mkv"
  else p

/-- Model of `Path::parent` for Unix-style paths without trailing
separators. -/
def parentOf (p : String) : Option String :=
  if p = "" ∨ p = "/" then none
  else
    match p.data.reverse.dropWhile (fun c => c ≠ '/') with
    | [] => some ""
    | ['/'] => some "/"
    | _ :: t => some ⟨t.reverse⟩

/-- Output parent handling (mod.rs lines 422-426): create the parent
directory when it does not exist; emit the creation attempt as an event. -/
def ensureParentDir (env : MixEnv) (output : String) :
    Except String Unit × List MixEvent :=
  match parentOf output with
  | none => (.ok (), [])
  | some parent =>
    if env.fsExists parent then (.ok (), [])
    else
      match env.mkdirResult parent with
      | none => (.ok (), [MixEvent.createDirAll parent])
      | some e => (.error ("创建输出目录失败: " ++ e), [MixEvent.createDirAll parent])

/-- Intermediate-artifact extension by kind (mod.rs lines 536-541). -/
def temp_ext_for_kind (kind : String) : String :=
  if kind = "video" then "mkv"
  else if kind = "audio" then "mka"
  else if kind = "subtitle" then "mks"
  else "mkv"

/-- Intermediate-artifact path `temp_root.join("{kind}.{ext}")`. -/
def temp_path_for (temp_root kind : String) : String :=
  temp_root ++ "/" ++ kind ++ "." ++ temp_ext_for_kind kind

/-- Kind-selector flags of a Stage 1 invocation (mod.rs lines 547-573): the
requested kind keeps its comma-joined ids, the other two are disabled. -/
def kind_selector_args (kind ids_joined : String) : List String :=
  if kind = "video" then
    ["--video-tracks", ids_joined, "--audio-tracks", "-1", "--subtitle-tracks", "-1"]
  else if kind = "audio" then
    ["--audio-tracks", ids_joined, "--video-tracks", "-1", "--subtitle-tracks", "-1"]
  else if kind = "subtitle" then
    ["--subtitle-tracks", ids_joined, "--video-tracks", "-1", "--audio-tracks", "-1"]
  else []

/-- Per-track flags of a Stage 1 invocation (mod.rs lines 575-587): blank
name, default yes, forced no, and the language override or kind default. -/
def per_track_args (track_langs : List (String × String)) (lang track_id : String) :
    List String :=
  ["--track-name", track_id ++ ":",
   "--default-track-flag", track_id ++ ":yes",
   "--forced-display-flag", track_id ++ ":no",
   "--language", track_id ++ ":" ++ ((List.lookup track_id track_langs).getD lang)]

/-- Complete argument list of the Stage 1 `mkvmerge` invocation built by
`build_temp` (mod.rs lines 530-589). -/
def build_temp_args (kind : String) (input : MixTrackInput) (temp_root : String) :
    List String :=
  ["-o", temp_path_for temp_root kind]
    ++ kind_selector_args kind (joinStr "," input.track_ids)
    ++ (input.track_ids.map (per_track_args input.track_langs (lang_for_kind kind))).flatten
    ++ [input.path]

/-- Run `build_temp` for one kind: invoke `mkvmerge` on the built argument
list and return the intermediate path on success (mod.rs lines 588-592). -/
def build_temp_run (env : MixEnv) (kind : String) (input : MixTrackInput)
    (temp_root : String) : Except String String × List MixEvent :=
  let args := build_temp_args kind input temp_root
  match run_mkvmerge env.runTool args with
  | .error e => (.error e, [MixEvent.buildCall kind args])
  | .ok _ => (.ok (temp_path_for temp_root kind), [MixEvent.buildCall kind args])

/-- One optional Stage 1 stage (mod.rs lines 598-612): nothing happens when
the kind has no consolidated selection. -/
def buildStage (env : MixEnv) (temp_root : String)
    (kind_inputs : List (String × MixTrackInput)) (kind : String) :
    Except String (Option String) × List MixEvent :=
  match List.lookup kind kind_inputs with
  | none => (.ok none, [])
  | some input =>
    match build_temp_run env kind input temp_root with
    | (.error e, ev) => (.error e, ev)
    | (.ok p, ev) => (.ok (some p), ev)

/-- Temporary-directory path of one mix call (mod.rs lines 519-525): the
application data directory joined with `hanamirip-cn/mix-temp/<timestamp>`. -/
def temp_root_of (dataDir : String) (ts : Int) : String :=
  dataDir ++ "/hanamirip-cn/mix-temp/" ++ toString ts

/-- Stages and combine (mod.rs lines 594-634): run Stage 1 for video, audio,
subtitle in order, stopping at the first failure; then run the Stage 2
combine on the output path and the existing intermediates in that fixed
order; on success, best-effort-remove every intermediate (the removal result
is discarded, mirroring `let _ = fs::remove_file(path)`). -/
def runStages (env : MixEnv) (temp_root : String)
    (kind_inputs : List (String × MixTrackInput)) (output : String) :
    Except String String × List MixEvent :=
  match buildStage env temp_root kind_inputs "video" with
  | (.error e, evV) => (.error e, evV)
  | (.ok video_temp, evV) =>
    match buildStage env temp_root kind_inputs "audio" with
    | (.error e, evA) => (.error e, evV ++ evA)
    | (.ok audio_temp, evA) =>
      match buildStage env temp_root kind_inputs "subtitle" with
      | (.error e, evS) => (.error e, evV ++ evA ++ evS)
      | (.ok subtitle_temp, evS) =>
        let temp_files := video_temp.toList ++ audio_temp.toList ++ subtitle_temp.toList
        let merge_args := ["-o", output] ++ temp_files
        match run_mkvmerge env.runTool merge_args with
        | .error e => (.error e, evV ++ evA ++ evS ++ [MixEvent.combineCall merge_args])
        | .ok _ =>
          let cleanup := temp_files.map (fun p =>
            let _ := env.removeResult p
            MixEvent.removeFile p)
          (.ok output, evV ++ evA ++ evS ++ [MixEvent.combineCall merge_args] ++ cleanup)

/-- Model of `mix_media_tracks` (mod.rs lines 408-635). -/
def mix_media_tracks (env : MixEnv) (inputs : List MixTrackInput)
    (output_path : String) : Except String String × List MixEvent :=
  if inputs.isEmpty then (.error "未提供可合成的轨道", [])
  else
    let output := withDefaultExt output_path
    match ensureParentDir env output with
    | (.error e, ev0) => (.error e, ev0)
    | (.ok _, ev0) =>
      match env.resolveMkvmerge with
      | .error e => (.error e, ev0)
      | .ok _ =>
        match groupLoop env.fsExists [] inputs with
        | .error e => (.error e, ev0)
        | .ok kind_inputs =>
          if (List.lookup "video" kind_inputs).isNone then
            (.error "请先检测并选择至少一个视频轨道", ev0)
          else
            match env.appDataDir with
            | .error e => (.error ("无法获取数据目录: " ++ e), ev0)
            | .ok dataDir =>
              let temp_root := temp_root_of dataDir env.timestampMillis
              let ev1 := ev0 ++ [MixEvent.createDirAll temp_root]
              match env.mkdirResult temp_root with
              | some e => (.error ("创建临时目录失败: " ++ e), ev1)
              | none =>
                match runStages env temp_root kind_inputs output with
                | (res, ev2) => (res, ev1 ++ ev2)

/-! ### Helper lemmas -/

/-- Example consolidated selection used by the C1 witness. -/
def c1Input : MixTrackInput :=
  { path := "/src.mkv", kind := "audio", track_ids := ["1", "3"],
    track_langs := [("3", "de")] }

/-- A decoded Matroska video track whose explicit codec-name property is
present but empty. -/
def c8Track : MkvmergeTrack :=
  { id := 0, type := some "video", codec := some "V_MPEG4/ISO/AVC",
    properties := some { codec_name := some "" } }

/-- Validity of one raw selection's source path (mod.rs lines 479-485): the
trimmed path is non-blank and exists on disk. -/
def validPath (fsE : String → Bool) (input : MixTrackInput) : Prop :=
  rustTrim input.path ≠ "" ∧ fsE (rustTrim input.path) = true

/-- A raw selection survives planning when its trimmed id list is non-empty
(mod.rs lines 492-494). -/
def survives (input : MixTrackInput) : Prop := survivingIds input ≠ []

/-- Conflicting audio selections used by the C5 witness. -/
def c5Inputs : List MixTrackInput :=
  [{ path := "/a.mka", kind := "audio", track_ids := ["1"], track_langs := [] },
   { path := "/b.mka", kind := "audio", track_ids := ["2"], track_langs := [] }]

/-- Environment used by the C9 witness: the output parent `d` is missing,
everything else succeeds. -/
def c9Env : MixEnv :=
  { fsExists := fun p => !(p == "d")
    mkdirResult := fun _ => none
    resolveMkvmerge := .ok ()
    appDataDir := .ok "/data"
    timestampMillis := 7
    runTool := fun _ => .exited true (some 0) "" ""
    removeResult := fun _ => none }

/-- Selection list whose first entry has a blank path. -/
def c9Inputs : List MixTrackInput :=
  [{ path := "", kind := "video", track_ids := ["0"], track_langs := [] }]

/-- All-success environment used by the C6 and C7 witnesses. -/
def c6Env : MixEnv :=
  { fsExists := fun _ => true
    mkdirResult := fun _ => none
    resolveMkvmerge := .ok ()
    appDataDir := .ok "/data"
    timestampMillis := 42
    runTool := fun _ => .exited true (some 0) "" ""
    removeResult := fun _ => none }

/-- The single video selection of the witness mix. -/
def c6Input : MixTrackInput :=
  { path := "/v.mp4", kind := "video", track_ids := ["0"], track_langs := [] }

/-- Selection list of the witness mix. -/
def c6Inputs : List MixTrackInput := [c6Input]

/-- Temporary directory of the witness mix. -/
def c6Tr : String := temp_root_of "/data" 42

/-- Consolidated map of the witness mix. -/
def c6M : List (String × MixTrackInput) := [("video", c6Input)]

/-- Combine arguments of the witness mix. -/
def c6Margs : List String := ["-o", "/out/x.mkv"] ++ [temp_path_for c6Tr "video"]

/-- Events before the combine in the witness mix. -/
def c6Pre : List MixEvent :=
  [MixEvent.createDirAll c6Tr,
   MixEvent.buildCall "video" (build_temp_args "video" c6Input c6Tr)]

/-- Events after the combine in the witness mix. -/
def c6Post : List MixEvent := [MixEvent.removeFile (temp_path_for c6Tr "video")]

/-- Decimal digit list of a natural number, most significant first: the
recursion that `Nat.toDigitsCore` implements with explicit fuel. -/
def digitsRep (n : Nat) : List Char :=
  if n < 10 then [Nat.digitChar n]
  else digitsRep (n / 10) ++ [Nat.digitChar (n % 10)]
termination_by n
decreasing_by
  simp_wf
  exact Nat.div_lt_self (by omega) (by omega)

/-- Numeric value of a decimal digit character. -/
def digitVal (c : Char) : Nat := c.toNat - 48

/-- Parse a digit list back to its value. -/
def listVal (l : List Char) : Nat := l.foldl (fun a c => 10 * a + digitVal c) 0

/-- A second, different selection list submitted concurrently with
`c6Inputs` in the C2 counterexample. -/
def c2InputsB : List MixTrackInput :=
  [c6Input, { path := "/a.mka", kind := "audio", track_ids := ["1"], track_langs := [] }]

/-! ### Theorems -/

/-- An infix of `ys` is an infix of any list with `ys` in the middle. -/
theorem isInfix_trans_mid {α : Type} {xs ys : List α} (zs ws : List α)
    (h : xs <:+: ys) : xs <:+: zs ++ (ys ++ ws) := by
  obtain ⟨s, t, hst⟩ := h
  exact ⟨zs ++ s, t ++ ws, by rw [← hst]; simp [List.append_assoc]⟩

/-- One unfolding step of the byte-size division loop. -/
theorem sizeLoopIdx_step (fuel bytes idx : Nat) :
    sizeLoopIdx (fuel + 1) bytes idx =
      if 1024 ^ (idx + 1) ≤ bytes ∧ idx < 4 then sizeLoopIdx fuel bytes (idx + 1)
      else idx := rfl

/-- Closed form of the unit index chosen by the division loop. -/
theorem sizeLoopIdx_eq (b : Nat) :
    sizeLoopIdx (UNITS.length - 1) b 0 =
      if 1024 ^ 4 ≤ b then 4 else if 1024 ^ 3 ≤ b then 3
      else if 1024 ^ 2 ≤ b then 2 else if 1024 ≤ b then 1 else 0 := by
  show sizeLoopIdx 4 b 0 = _
  rw [show (4:Nat) = 3 + 1 from rfl, sizeLoopIdx_step,
    show (3:Nat) = 2 + 1 from rfl, sizeLoopIdx_step,
    show (2:Nat) = 1 + 1 from rfl, sizeLoopIdx_step,
    show (1:Nat) = 0 + 1 from rfl, sizeLoopIdx_step]
  show (if 1024 ^ 1 ≤ b ∧ _ then _ else _) = _
  norm_num
  rw [show ∀ x i : Nat, sizeLoopIdx 0 x i = i from fun _ _ => rfl]
  split_ifs <;> omega

/-- Two-digit rendering always has length two below 100. -/
theorem pad2_length {n : Nat} (h : n < 100) : (pad2 n).length = 2 := by
  have hall : ∀ m, m < 100 → (pad2 m).length = 2 := by decide
  exact hall n h

/-- C3: the byte-size formatter divides by 1024 while the value is at least
1024, never passes the TB unit, prints zero decimals at the byte unit and two
decimals at larger units, and on the given concrete inputs produces exactly
the claimed strings; every value of at least one TiB renders with `TB`. -/
theorem format_bytes_readable_spec :
    format_bytes_readable 0 = "0 B" ∧
    format_bytes_readable 1023 = "1023 B" ∧
    format_bytes_readable 1024 = "1.00 KB" ∧
    format_bytes_readable 1048576 = "1.00 MB" ∧
    (∀ b : Nat, sizeLoopIdx (UNITS.length - 1) b 0 ≤ 4) ∧
    (∀ b : Nat, 1024 ^ 4 ≤ b →
      format_bytes_readable b = fmtFixed2 b (1024 ^ 4) ++ " TB") ∧
    (∀ b : Nat, b < 1024 → format_bytes_readable b = Nat.repr b ++ " B") ∧
    (∀ b : Nat, 1024 ≤ b → ∃ whole frac : String,
      format_bytes_readable b
        = whole ++ "." ++ frac ++ " " ++ unitsAt (sizeLoopIdx (UNITS.length - 1) b 0) ∧
      frac.length = 2 ∧ unitsAt (sizeLoopIdx (UNITS.length - 1) b 0) ≠ "B") := by
  refine ⟨rfl, rfl, rfl, rfl, ?_, ?_, ?_, ?_⟩
  · intro b
    rw [sizeLoopIdx_eq]
    split_ifs <;> omega
  · intro b hb
    have hidx : sizeLoopIdx (UNITS.length - 1) b 0 = 4 := by
      rw [sizeLoopIdx_eq, if_pos hb]
    simp only [format_bytes_readable, hidx]
    norm_num
    rw [String.append_assoc]
    rfl
  · intro b hb
    have hidx : sizeLoopIdx (UNITS.length - 1) b 0 = 0 := by
      rw [sizeLoopIdx_eq]
      have h1 : ¬ 1024 ^ 4 ≤ b := by norm_num; omega
      have h2 : ¬ 1024 ^ 3 ≤ b := by norm_num; omega
      have h3 : ¬ 1024 ^ 2 ≤ b := by norm_num; omega
      have h4 : ¬ 1024 ≤ b := by omega
      rw [if_neg h1, if_neg h2, if_neg h3, if_neg h4]
    simp only [format_bytes_readable, hidx, eq_self_iff_true, ite_true]
    rw [String.append_assoc]
    rfl
  · intro b hb
    have hidx : sizeLoopIdx (UNITS.length - 1) b 0 ≠ 0 := by
      rw [sizeLoopIdx_eq]
      split_ifs <;> omega
    refine ⟨Nat.repr (roundHalfToEven (b * 100)
        (1024 ^ sizeLoopIdx (UNITS.length - 1) b 0) / 100),
      pad2 (roundHalfToEven (b * 100)
        (1024 ^ sizeLoopIdx (UNITS.length - 1) b 0) % 100), ?_, ?_, ?_⟩
    · simp only [format_bytes_readable, if_neg hidx, fmtFixed2]
    · exact pad2_length (Nat.mod_lt _ (by norm_num))
    · have hle : sizeLoopIdx (UNITS.length - 1) b 0 ≤ 4 := by
        rw [sizeLoopIdx_eq]
        split_ifs <;> omega
      have hball : ∀ i, i < 5 → i ≠ 0 → unitsAt i ≠ "B" := by decide
      exact hball _ (by omega) hidx

/-- Witness for C3: one TiB formats with the TB unit. -/
theorem format_bytes_readable_spec_witness :
    format_bytes_readable (2 ^ 40) = fmtFixed2 (2 ^ 40) (1024 ^ 4) ++ " TB" :=
  format_bytes_readable_spec.2.2.2.2.2.1 (2 ^ 40) (by norm_num)

/-- C1: every Stage 1 argument list contains, for each included track id, the
contiguous group clearing the name, forcing default yes and forced-display
no, and setting the language to the per-track override when present and the
kind default otherwise; the kind defaults are ja/ja/zh-Hans/und. -/
theorem stage1_per_track_flags :
    (∀ (kind : String) (input : MixTrackInput) (temp_root id : String),
      id ∈ input.track_ids →
      ["--track-name", id ++ ":",
       "--default-track-flag", id ++ ":yes",
       "--forced-display-flag", id ++ ":no",
       "--language", id ++ ":" ++ ((List.lookup id input.track_langs).getD (lang_for_kind kind))]
        <:+: build_temp_args kind input temp_root) ∧
    lang_for_kind "video" = "ja" ∧ lang_for_kind "audio" = "ja" ∧
    lang_for_kind "subtitle" = "zh-Hans" ∧
    (∀ kind : String, kind ∉ (["video", "audio", "subtitle"] : List String) →
      lang_for_kind kind = "und") := by
  refine ⟨?_, rfl, rfl, rfl, ?_⟩
  · intro kind input temp_root id hid
    have hmem : per_track_args input.track_langs (lang_for_kind kind) id
        ∈ input.track_ids.map (per_track_args input.track_langs (lang_for_kind kind)) :=
      List.mem_map_of_mem _ hid
    have hinf := List.infix_of_mem_flatten hmem
    have hshape : build_temp_args kind input temp_root =
        (["-o", temp_path_for temp_root kind]
            ++ kind_selector_args kind (joinStr "," input.track_ids))
          ++ ((input.track_ids.map
                (per_track_args input.track_langs (lang_for_kind kind))).flatten
            ++ [input.path]) := by
      simp [build_temp_args, List.append_assoc]
    rw [hshape]
    exact isInfix_trans_mid _ _ hinf
  · intro kind hk
    simp only [List.mem_cons, List.not_mem_nil, or_false, not_or] at hk
    obtain ⟨h1, h2, h3⟩ := hk
    simp [lang_for_kind, h1, h2, h3]

/-- Witness for C1 at a concrete selection: the overridden track `3` gets its
override `de`, as a contiguous flag group. -/
theorem stage1_per_track_flags_witness :
    ["--track-name", "3:", "--default-track-flag", "3:yes",
     "--forced-display-flag", "3:no", "--language", "3:de"]
      <:+: build_temp_args "audio" c1Input "/tmp/mix" :=
  stage1_per_track_flags.1 "audio" c1Input "/tmp/mix" "3" (by decide)

/-- C4: probing routes `mkv`, `mka`, `mks` extensions (in any letter case) to
the Matroska analyzer invoked with the single JSON info-dump flag, and any
other extension, or no extension at all, to the generic analyzer invoked with
error-only logging, JSON output, and format- and stream-level metadata. -/
theorem probe_backend_selection :
    (∀ p e, extensionOf p = some e →
      rustToLower e ∈ (["mkv", "mka", "mks"] : List String) →
      probe_backend_args p = .mkvmergeProbe ["-J", p]) ∧
    (∀ p e, extensionOf p = some e →
      rustToLower e ∉ (["mkv", "mka", "mks"] : List String) →
      probe_backend_args p = .ffprobeProbe
        ["-v", "error", "-print_format", "json", "-show_format", "-show_streams", p]) ∧
    (∀ p, extensionOf p = none →
      probe_backend_args p = .ffprobeProbe
        ["-v", "error", "-print_format", "json", "-show_format", "-show_streams", p]) := by
  refine ⟨?_, ?_, ?_⟩
  · intro p e he hm
    simp only [probe_backend_args, he, Option.getD_some]
    simp only [List.mem_cons, List.not_mem_nil, or_false] at hm
    rcases hm with h | h | h <;> rw [h] <;> rfl
  · intro p e he hm
    have hc : (["mkv", "mka", "mks"] : List String).contains (rustToLower e) = false := by
      rw [Bool.eq_false_iff]
      intro hcontra
      exact hm (List.mem_of_elem_eq_true hcontra)
    simp only [probe_backend_args, he, Option.getD_some]
    rw [hc]
    rfl
  · intro p he
    simp only [probe_backend_args, he, Option.getD_none]
    rfl

/-- Witness for C4 at concrete paths: an upper-case `.MKV` file routes to the
Matroska analyzer and a `.mp4` file routes to the generic analyzer. -/
theorem probe_backend_selection_witness :
    probe_backend_args "/films/A.MKV" = .mkvmergeProbe ["-J", "/films/A.MKV"] ∧
    probe_backend_args "/films/a.mp4" = .ffprobeProbe
      ["-v", "error", "-print_format", "json", "-show_format", "-show_streams",
       "/films/a.mp4"] :=
  ⟨probe_backend_selection.1 "/films/A.MKV" "MKV" (by decide) (by decide),
   probe_backend_selection.2.1 "/films/a.mp4" "mp4" (by decide) (by decide)⟩

/-- Codec resolution of the Matroska branch as a plain fallback expression. -/
theorem mkv_codec_unfold (kind : String) (container file_size : Option String)
    (track : MkvmergeTrack) :
    (mkv_track_to_response kind container file_size track).codec =
      ((((track.properties.getD {}).codec_name.or track.codec).or
        (track.properties.getD {}).codec_id).getD "unknown") := rfl

/-- C8 (amended): the Matroska codec is resolved by the fallback chain
explicit codec name, generic codec field, codec id, literal `unknown`; the
result is non-empty provided every codec field the report does supply is a
non-empty string (an empty supplied field is passed through verbatim). -/
theorem mkv_codec_resolution :
    (∀ (kind : String) (container file_size : Option String) (track : MkvmergeTrack),
      (mkv_track_to_response kind container file_size track).codec =
        match (track.properties.getD {}).codec_name, track.codec,
            (track.properties.getD {}).codec_id with
        | some c, _, _ => c
        | none, some c, _ => c
        | none, none, some c => c
        | none, none, none => "unknown") ∧
    (∀ (kind : String) (container file_size : Option String) (track : MkvmergeTrack),
      (∀ s, (track.properties.getD {}).codec_name = some s → s ≠ "") →
      (∀ s, track.codec = some s → s ≠ "") →
      (∀ s, (track.properties.getD {}).codec_id = some s → s ≠ "") →
      (mkv_track_to_response kind container file_size track).codec ≠ "") := by
  constructor
  · intro kind container file_size track
    rw [mkv_codec_unfold]
    rcases hcn : (track.properties.getD {}).codec_name with _ | c1 <;>
      rcases hc : track.codec with _ | c2 <;>
        rcases hci : (track.properties.getD {}).codec_id with _ | c3 <;>
          simp [Option.or]
  · intro kind container file_size track h1 h2 h3
    rw [mkv_codec_unfold]
    rcases hcn : (track.properties.getD {}).codec_name with _ | c1
    · rcases hc : track.codec with _ | c2
      · rcases hci : (track.properties.getD {}).codec_id with _ | c3
        · simp [hcn, hc, hci, Option.or]
        · simpa [hcn, hc, hci, Option.or] using h3 c3 hci
      · simpa [hcn, hc, Option.or] using h2 c2 hc
    · simpa [hcn, Option.or] using h1 c1 hcn

/-- C8 counterexample: a track whose report carries an empty explicit codec
name is returned with an empty codec string, refuting the never-empty part of
the claim as stated. -/
theorem mkv_codec_empty_counterexample :
    (mkv_tracks_of_output "video" { tracks := some [c8Track] }).map
      (fun t => t.codec) = [""] := rfl

/-- Witness for C8 (amended) at a concrete track resolved from the codec id. -/
theorem mkv_codec_resolution_witness :
    (mkv_track_to_response "video" none none
      { id := 0, type := some "video", codec := none,
        properties := some { codec_id := some "V_TEST" } }).codec ≠ "" :=
  mkv_codec_resolution.2 "video" none none _
    (by intro s hs; simp at hs) (by intro s hs; simp at hs)
    (by intro s hs; simp at hs; simp [← hs])

/-- C10: a successfully decoded analyzer report with an absent stream list,
an empty stream list, or no stream of the requested kind normalizes to a
successful empty track sequence (the post-decode mapping has no error path). -/
theorem empty_or_unmatched_streams_yield_empty :
    (∀ (kind : String) (container : Option MkvmergeContainer),
      mkv_tracks_of_output kind { container := container, tracks := none } = []) ∧
    (∀ (kind : String) (container : Option MkvmergeContainer),
      mkv_tracks_of_output kind { container := container, tracks := some [] } = []) ∧
    (∀ (kind : String) (fmt : Option FFProbeFormat),
      ffprobe_tracks_of_output kind { streams := none, format := fmt } = []) ∧
    (∀ (kind : String) (fmt : Option FFProbeFormat),
      ffprobe_tracks_of_output kind { streams := some [], format := fmt } = []) ∧
    (∀ (kind : String) (parsed : MkvmergeOutput),
      (∀ t ∈ parsed.tracks.getD [], mkvKindFilter kind t = false) →
      mkv_tracks_of_output kind parsed = []) ∧
    (∀ (kind : String) (parsed : FFProbeOutput),
      (∀ s ∈ parsed.streams.getD [], (s.codec_type == some kind) = false) →
      ffprobe_tracks_of_output kind parsed = []) := by
  refine ⟨fun kind container => rfl, fun kind container => rfl,
    fun kind fmt => rfl, fun kind fmt => rfl, ?_, ?_⟩
  · intro kind parsed h
    have hf : (parsed.tracks.getD []).filter (mkvKindFilter kind) = [] := by
      rw [List.filter_eq_nil_iff]
      intro a ha
      simp [h a ha]
    simp [mkv_tracks_of_output, hf]
  · intro kind parsed h
    have hf : (parsed.streams.getD []).filter
        (fun stream => stream.codec_type == some kind) = [] := by
      rw [List.filter_eq_nil_iff]
      intro a ha
      simp [h a ha]
    simp [ffprobe_tracks_of_output, hf]

/-- Witness for C10 at a concrete report: a lone audio track matches no
`video` request and the result is empty rather than an error. -/
theorem empty_or_unmatched_streams_witness :
    mkv_tracks_of_output "video"
      { tracks := some [{ id := 1, type := some "audio" }] } = [] :=
  empty_or_unmatched_streams_yield_empty.2.2.2.2.1 "video"
    { tracks := some [{ id := 1, type := some "audio" }] } (by decide)

/-- Updating the id and language fields of an entry keeps its path. -/
theorem path_update (e : MixTrackInput) (ids : List String)
    (langs : List (String × String)) :
    ({ e with track_ids := ids, track_langs := langs } : MixTrackInput).path = e.path := rfl

/-- Looking up a different key ignores an overwrite-in-place map step. -/
theorem lookup_map_overwrite {α : Type} (m : List (String × α)) (k k' : String)
    (v : α) (h : k' ≠ k) :
    List.lookup k' (m.map (fun p => if p.1 = k then (k, v) else p)) =
      List.lookup k' m := by
  induction m with
  | nil => rfl
  | cons p rest ih =>
    simp only [List.map_cons]
    by_cases hpk : p.1 = k
    · rw [if_pos hpk]
      have h1 : (k' == k) = false := by simp [h]
      have h2 : (k' == p.1) = false := by simp [hpk, h]
      simp only [List.lookup, h1, h2]
      exact ih
    · rw [if_neg hpk]
      simp only [List.lookup]
      cases hbe : k' == p.1
      · exact ih
      · rfl

/-- Looking up the overwritten key after an overwrite-in-place map step. -/
theorem lookup_map_overwrite_self {α : Type} (m : List (String × α)) (k : String)
    (v : α) (hs : (List.lookup k m).isSome) :
    List.lookup k (m.map (fun p => if p.1 = k then (k, v) else p)) = some v := by
  induction m with
  | nil => simp [List.lookup] at hs
  | cons p rest ih =>
    simp only [List.map_cons]
    by_cases hpk : p.1 = k
    · rw [if_pos hpk]
      simp [List.lookup]
    · rw [if_neg hpk]
      have hne : (k == p.1) = false := by
        simp only [beq_eq_false_iff_ne, ne_eq]
        exact fun hkp => hpk hkp.symm
      simp only [List.lookup, hne] at hs
      simp only [List.lookup, hne]
      exact ih hs

/-- Hash-map insertion makes the inserted key map to the inserted value. -/
theorem lookup_hmInsert_self {α : Type} (m : List (String × α)) (k : String) (v : α) :
    List.lookup k (hmInsert m k v) = some v := by
  unfold hmInsert
  split
  · exact lookup_map_overwrite_self m k v (by assumption)
  · rename_i hs
    rw [List.lookup_append, Option.not_isSome_iff_eq_none.mp hs]
    simp [List.lookup]

/-- Hash-map insertion leaves every other key's binding unchanged. -/
theorem lookup_hmInsert_ne {α : Type} (m : List (String × α)) (k k' : String)
    (v : α) (h : k' ≠ k) :
    List.lookup k' (hmInsert m k v) = List.lookup k' m := by
  unfold hmInsert
  split
  · exact lookup_map_overwrite m k k' v h
  · rw [List.lookup_append]
    have h1 : (k' == k) = false := by simp [h]
    have : List.lookup k' [(k, v)] = none := by
      simp only [List.lookup, h1]
    rw [this, Option.or_none]

/-- When every selection's path validates, the grouping loop can only fail
with a `ConflictingSourceForKind` error. -/
theorem groupLoop_error_conflict (fsE : String → Bool) :
    ∀ (inputs : List MixTrackInput) (acc : List (String × MixTrackInput)) (e : String),
      (∀ i ∈ inputs, validPath fsE i) → groupLoop fsE acc inputs = .error e →
      ∃ k, e = conflict_error k := by
  intro inputs
  induction inputs with
  | nil => intro acc e _ h; simp [groupLoop] at h
  | cons input rest ih =>
    intro acc e hv h
    obtain ⟨hne, hex⟩ := hv input (List.mem_cons_self _ _)
    simp only [groupLoop] at h
    rw [if_neg hne] at h
    rw [hex] at h
    simp only [Bool.true_eq_false, if_false] at h
    split at h
    · exact ih acc e (fun i hi => hv i (List.mem_cons_of_mem _ hi)) h
    · split at h
      · exact ⟨_, (Except.error.injEq _ _).mp h.symm⟩
      · exact ih _ e (fun i hi => hv i (List.mem_cons_of_mem _ hi)) h

/-- If the loop succeeds past a non-surviving head, it ran on the tail with
the same accumulator. -/
theorem groupLoop_cons_ok_skip (fsE : String → Bool)
    (acc : List (String × MixTrackInput)) (input : MixTrackInput)
    (rest : List MixTrackInput) (m : List (String × MixTrackInput))
    (h : groupLoop fsE acc (input :: rest) = .ok m) (hW : ¬ survives input) :
    groupLoop fsE acc rest = .ok m := by
  simp only [groupLoop] at h
  split at h
  · exact absurd h (by simp)
  split at h
  · exact absurd h (by simp)
  split at h
  · exact h
  · rename_i hids
    rw [List.isEmpty_iff] at hids
    exact absurd (not_ne_iff.mp hW) hids

/-- If the loop succeeds past a surviving head, it ran on the tail with the
head's entry inserted; that entry carries the head's trimmed path, and any
pre-existing entry for the head's kind already carried that path. -/
theorem groupLoop_cons_ok_step (fsE : String → Bool)
    (acc : List (String × MixTrackInput)) (input : MixTrackInput)
    (rest : List MixTrackInput) (m : List (String × MixTrackInput))
    (h : groupLoop fsE acc (input :: rest) = .ok m) (hW : survives input) :
    groupLoop fsE (hmInsert acc (rustToLower input.kind) (stepEntry acc input)) rest
        = .ok m ∧
      (stepEntry acc input).path = rustTrim input.path ∧
      ∀ e, List.lookup (rustToLower input.kind) acc = some e →
        e.path = rustTrim input.path := by
  simp only [groupLoop] at h
  split at h
  · exact absurd h (by simp)
  split at h
  · exact absurd h (by simp)
  split at h
  · rename_i hids
    rw [List.isEmpty_iff] at hids
    exact absurd hids hW
  split at h
  · exact absurd h (by simp)
  · rename_i hcheck
    push_neg at hcheck
    refine ⟨h, hcheck, ?_⟩
    intro e hl
    rw [hl] at hcheck
    simpa using hcheck

/-- Unfolding equation for a surviving head whose path check passes. -/
theorem groupLoop_cons_eq_step (fsE : String → Bool)
    (acc : List (String × MixTrackInput)) (input : MixTrackInput)
    (rest : List MixTrackInput)
    (h1 : rustTrim input.path ≠ "") (h2 : fsE (rustTrim input.path) = true)
    (hW : survives input)
    (hcheck : ((List.lookup (rustToLower input.kind) acc).getD
      { path := rustTrim input.path, kind := rustToLower input.kind,
        track_ids := [], track_langs := [] }).path = rustTrim input.path) :
    groupLoop fsE acc (input :: rest) =
      groupLoop fsE (hmInsert acc (rustToLower input.kind) (stepEntry acc input)) rest := by
  simp only [groupLoop]
  rw [if_neg h1, h2]
  simp only [Bool.true_eq_false, if_false]
  rw [if_neg (by rw [List.isEmpty_iff]; exact hW)]
  rw [if_neg (not_ne_iff.mpr hcheck)]

/-- Unfolding equation for a valid but non-surviving head. -/
theorem groupLoop_cons_eq_skip (fsE : String → Bool)
    (acc : List (String × MixTrackInput)) (input : MixTrackInput)
    (rest : List MixTrackInput)
    (h1 : rustTrim input.path ≠ "") (h2 : fsE (rustTrim input.path) = true)
    (hW : ¬ survives input) :
    groupLoop fsE acc (input :: rest) = groupLoop fsE acc rest := by
  simp only [groupLoop]
  rw [if_neg h1, h2]
  simp only [Bool.true_eq_false, if_false]
  rw [if_pos (by rw [List.isEmpty_iff]; exact not_ne_iff.mp hW)]

/-- If the loop succeeds, every surviving selection whose kind already had an
accumulated entry agrees with that entry's path. -/
theorem groupLoop_ok_lookup_path (fsE : String → Bool) :
    ∀ (inputs : List MixTrackInput) (acc m : List (String × MixTrackInput)),
      groupLoop fsE acc inputs = .ok m →
      ∀ i ∈ inputs, survives i → ∀ e,
        List.lookup (rustToLower i.kind) acc = some e →
        rustTrim i.path = e.path := by
  intro inputs
  induction inputs with
  | nil => intro acc m _ i hi; exact absurd hi (List.not_mem_nil i)
  | cons input rest ih =>
    intro acc m h i hi hs e hl
    rcases List.mem_cons.mp hi with rfl | hmem
    · obtain ⟨_, _, hbase⟩ := groupLoop_cons_ok_step fsE acc i rest m h hs
      exact (hbase e hl).symm
    · by_cases hWi : survives input
      · obtain ⟨h', hpath, hbase⟩ := groupLoop_cons_ok_step fsE acc input rest m h hWi
        by_cases hkk : rustToLower i.kind = rustToLower input.kind
        · have hl' : List.lookup (rustToLower i.kind)
              (hmInsert acc (rustToLower input.kind) (stepEntry acc input))
                = some (stepEntry acc input) := by
            rw [hkk]; exact lookup_hmInsert_self _ _ _
          have hth := ih _ m h' i hmem hs _ hl'
          have he : e.path = rustTrim input.path := hbase e (by rw [← hkk]; exact hl)
          rw [hth, hpath, he]
        · have hl' := lookup_hmInsert_ne acc (rustToLower input.kind)
            (rustToLower i.kind) (stepEntry acc input) hkk
          exact ih _ m h' i hmem hs e (by rw [hl']; exact hl)
      · exact ih acc m (groupLoop_cons_ok_skip fsE acc input rest m h hWi) i hmem hs e hl

/-- If the loop succeeds, any two surviving selections of the same kind carry
the same trimmed source path. -/
theorem groupLoop_ok_pair (fsE : String → Bool) :
    ∀ (inputs : List MixTrackInput) (acc m : List (String × MixTrackInput)),
      groupLoop fsE acc inputs = .ok m →
      ∀ a ∈ inputs, ∀ b ∈ inputs, survives a → survives b →
        rustToLower a.kind = rustToLower b.kind →
        rustTrim a.path = rustTrim b.path := by
  intro inputs
  induction inputs with
  | nil => intro acc m _ a ha; exact absurd ha (List.not_mem_nil a)
  | cons input rest ih =>
    intro acc m h a ha b hb hsa hsb hk
    rcases List.mem_cons.mp ha with rfl | hma <;> rcases List.mem_cons.mp hb with rfl | hmb
    · rfl
    · obtain ⟨h', hpath, _⟩ := groupLoop_cons_ok_step fsE acc a rest m h hsa
      have hl' : List.lookup (rustToLower b.kind)
          (hmInsert acc (rustToLower a.kind) (stepEntry acc a))
            = some (stepEntry acc a) := by
        rw [← hk]; exact lookup_hmInsert_self _ _ _
      have hth := groupLoop_ok_lookup_path fsE rest _ m h' b hmb hsb _ hl'
      rw [hth, hpath]
    · obtain ⟨h', hpath, _⟩ := groupLoop_cons_ok_step fsE acc b rest m h hsb
      have hl' : List.lookup (rustToLower a.kind)
          (hmInsert acc (rustToLower b.kind) (stepEntry acc b))
            = some (stepEntry acc b) := by
        rw [hk]; exact lookup_hmInsert_self _ _ _
      have hth := groupLoop_ok_lookup_path fsE rest _ m h' a hma hsa _ hl'
      rw [hth, hpath]
    · by_cases hWi : survives input
      · obtain ⟨h', _, _⟩ := groupLoop_cons_ok_step fsE acc input rest m h hWi
        exact ih _ m h' a hma b hmb hsa hsb hk
      · exact ih acc m (groupLoop_cons_ok_skip fsE acc input rest m h hWi)
          a hma b hmb hsa hsb hk

/-- If the loop succeeds, accumulated entries survive to the final map with
their paths unchanged. -/
theorem groupLoop_ok_preserve (fsE : String → Bool) :
    ∀ (inputs : List MixTrackInput) (acc m : List (String × MixTrackInput)),
      groupLoop fsE acc inputs = .ok m →
      ∀ k e, List.lookup k acc = some e →
        ∃ f, List.lookup k m = some f ∧ f.path = e.path := by
  intro inputs
  induction inputs with
  | nil =>
    intro acc m h k e hl
    simp only [groupLoop] at h
    cases h
    exact ⟨e, hl, rfl⟩
  | cons input rest ih =>
    intro acc m h k e hl
    by_cases hWi : survives input
    · obtain ⟨h', hpath, hbase⟩ := groupLoop_cons_ok_step fsE acc input rest m h hWi
      by_cases hkk : k = rustToLower input.kind
      · have hl' : List.lookup k
            (hmInsert acc (rustToLower input.kind) (stepEntry acc input))
              = some (stepEntry acc input) := by
          rw [hkk]; exact lookup_hmInsert_self _ _ _
        obtain ⟨f, hf, hfp⟩ := ih _ m h' k _ hl'
        refine ⟨f, hf, ?_⟩
        rw [hfp, hpath, hbase e (by rw [← hkk]; exact hl)]
      · have hl' := lookup_hmInsert_ne acc (rustToLower input.kind) k
          (stepEntry acc input) hkk
        exact ih _ m h' k e (by rw [hl']; exact hl)
    · exact ih acc m (groupLoop_cons_ok_skip fsE acc input rest m h hWi) k e hl

/-- When all selections validate and all same-kind survivors agree on their
trimmed path (also with the accumulator), the loop succeeds and the final map
holds one entry per surviving kind, carrying that kind's shared path. -/
theorem groupLoop_ok_of_consistent (fsE : String → Bool) :
    ∀ (inputs : List MixTrackInput) (acc : List (String × MixTrackInput)),
      (∀ i ∈ inputs, validPath fsE i) →
      (∀ i ∈ inputs, survives i → ∀ e,
        List.lookup (rustToLower i.kind) acc = some e → rustTrim i.path = e.path) →
      (∀ a ∈ inputs, ∀ b ∈ inputs, survives a → survives b →
        rustToLower a.kind = rustToLower b.kind → rustTrim a.path = rustTrim b.path) →
      ∃ m, groupLoop fsE acc inputs = .ok m ∧
        ∀ i ∈ inputs, survives i → ∃ e,
          List.lookup (rustToLower i.kind) m = some e ∧ e.path = rustTrim i.path := by
  intro inputs
  induction inputs with
  | nil =>
    intro acc _ _ _
    exact ⟨acc, rfl, fun i hi => absurd hi (List.not_mem_nil i)⟩
  | cons input rest ih =>
    intro acc hv hcompat hpair
    obtain ⟨h1, h2⟩ := hv input (List.mem_cons_self _ _)
    by_cases hWi : survives input
    · have hcheck : ((List.lookup (rustToLower input.kind) acc).getD
          { path := rustTrim input.path, kind := rustToLower input.kind,
            track_ids := [], track_langs := [] }).path = rustTrim input.path := by
        cases hl : List.lookup (rustToLower input.kind) acc with
        | none => rfl
        | some e =>
          simpa using (hcompat input (List.mem_cons_self _ _) hWi e hl).symm
      have heq := groupLoop_cons_eq_step fsE acc input rest h1 h2 hWi hcheck
      have hstep : (stepEntry acc input).path = rustTrim input.path := hcheck
      have hcompat' : ∀ i ∈ rest, survives i → ∀ e,
          List.lookup (rustToLower i.kind)
            (hmInsert acc (rustToLower input.kind) (stepEntry acc input)) = some e →
          rustTrim i.path = e.path := by
        intro i hi hsi e hl
        by_cases hkk : rustToLower i.kind = rustToLower input.kind
        · rw [hkk, lookup_hmInsert_self] at hl
          obtain rfl := Option.some.inj hl
          rw [hstep]
          exact hpair i (List.mem_cons_of_mem _ hi) input (List.mem_cons_self _ _)
            hsi hWi hkk
        · rw [lookup_hmInsert_ne _ _ _ _ hkk] at hl
          exact hcompat i (List.mem_cons_of_mem _ hi) hsi e hl
      obtain ⟨m, hm, hconc⟩ := ih (hmInsert acc (rustToLower input.kind) (stepEntry acc input))
        (fun i hi => hv i (List.mem_cons_of_mem _ hi)) hcompat'
        (fun a ha b hb => hpair a (List.mem_cons_of_mem _ ha) b (List.mem_cons_of_mem _ hb))
      refine ⟨m, by rw [heq]; exact hm, ?_⟩
      intro i hi hsi
      rcases List.mem_cons.mp hi with rfl | hmem
      · have hl' : List.lookup (rustToLower i.kind)
            (hmInsert acc (rustToLower i.kind) (stepEntry acc i))
              = some (stepEntry acc i) := lookup_hmInsert_self _ _ _
        obtain ⟨f, hf, hfp⟩ := groupLoop_ok_preserve fsE rest _ m hm _ _ hl'
        refine ⟨f, hf, ?_⟩
        rw [hfp]
        exact hstep
      · exact hconc i hmem hsi
    · have heq := groupLoop_cons_eq_skip fsE acc input rest h1 h2 hWi
      obtain ⟨m, hm, hconc⟩ := ih acc
        (fun i hi => hv i (List.mem_cons_of_mem _ hi))
        (fun i hi => hcompat i (List.mem_cons_of_mem _ hi))
        (fun a ha b hb => hpair a (List.mem_cons_of_mem _ ha) b (List.mem_cons_of_mem _ hb))
      refine ⟨m, by rw [heq]; exact hm, ?_⟩
      intro i hi hsi
      rcases List.mem_cons.mp hi with rfl | hmem
      · exact absurd hsi hWi
      · exact hconc i hmem hsi

/-- C5: two surviving selections of the same kind naming different trimmed
source paths make planning fail with the `ConflictingSourceForKind` error;
when all same-kind survivors agree on one source path, grouping succeeds and
yields a single consolidated selection per kind carrying that path. -/
theorem plan_conflicting_source :
    (∀ (fsE : String → Bool) (inputs : List MixTrackInput) (a b : MixTrackInput),
      (∀ i ∈ inputs, validPath fsE i) →
      a ∈ inputs → b ∈ inputs → survives a → survives b →
      rustToLower a.kind = rustToLower b.kind →
      rustTrim a.path ≠ rustTrim b.path →
      ∃ k, groupLoop fsE [] inputs = .error (conflict_error k)) ∧
    (∀ (fsE : String → Bool) (inputs : List MixTrackInput),
      (∀ i ∈ inputs, validPath fsE i) →
      (∀ a ∈ inputs, ∀ b ∈ inputs, survives a → survives b →
        rustToLower a.kind = rustToLower b.kind → rustTrim a.path = rustTrim b.path) →
      ∃ m, groupLoop fsE [] inputs = .ok m ∧
        ∀ i ∈ inputs, survives i → ∃ e,
          List.lookup (rustToLower i.kind) m = some e ∧ e.path = rustTrim i.path) := by
  constructor
  · intro fsE inputs a b hv ha hb hsa hsb hk hp
    cases hres : groupLoop fsE [] inputs with
    | ok m =>
      exact absurd (groupLoop_ok_pair fsE inputs [] m hres a ha b hb hsa hsb hk) hp
    | error e =>
      obtain ⟨k, rfl⟩ := groupLoop_error_conflict fsE inputs [] e hv hres
      exact ⟨k, rfl⟩
  · intro fsE inputs hv hcons
    exact groupLoop_ok_of_consistent fsE inputs [] hv
      (fun i _ _ e hl => by simp [List.lookup] at hl) hcons

/-- Witness for C5 at two concrete audio selections with different sources. -/
theorem plan_conflicting_source_witness :
    ∃ k, groupLoop (fun _ => true) [] c5Inputs = .error (conflict_error k) :=
  plan_conflicting_source.1 (fun _ => true) c5Inputs
    { path := "/a.mka", kind := "audio", track_ids := ["1"], track_langs := [] }
    { path := "/b.mka", kind := "audio", track_ids := ["2"], track_langs := [] }
    (by intro i hi; constructor
        · revert hi
          simp only [c5Inputs, List.mem_cons, List.not_mem_nil, or_false]
          rintro (rfl | rfl) <;> decide
        · rfl)
    (by simp [c5Inputs]) (by simp [c5Inputs])
    (by show survivingIds _ ≠ []; decide) (by show survivingIds _ ≠ []; decide)
    (by decide) (by decide)

/-- C9: on any non-empty selection list, the defaulted (`.mkv`) output path's
missing parent directory is created before any per-selection validation runs,
so the directory-creation event occurs whatever the call later returns; in
particular a call failing validation with an empty source path has already
created the directory. -/
theorem output_dir_created_before_validation :
    (∀ (env : MixEnv) (inputs : List MixTrackInput) (outp par : String),
      inputs ≠ [] →
      parentOf (withDefaultExt outp) = some par →
      env.fsExists par = false →
      MixEvent.createDirAll par ∈ (mix_media_tracks env inputs outp).2) ∧
    mix_media_tracks c9Env c9Inputs "d/out"
      = (.error "轨道文件路径为空", [MixEvent.createDirAll "d"]) := by
  constructor
  · intro env inputs outp par hne hpar hex
    obtain ⟨i, is, rfl⟩ := List.exists_cons_of_ne_nil hne
    simp only [mix_media_tracks, List.isEmpty_cons, Bool.false_eq_true, if_false]
    rcases hmk : env.mkdirResult par with _ | e₀ <;>
      simp only [ensureParentDir, hpar, hex, Bool.false_eq_true, if_false, hmk]
    case _ =>
      rcases henv : env.resolveMkvmerge with e₁ | u
      · simp [henv]
      rcases hg : groupLoop env.fsExists [] (i :: is) with e₂ | m
      · simp [henv, hg]
      simp only [henv, hg]
      rcases hvid : List.lookup "video" m with _ | inp
      · simp [hvid]
      · simp only [hvid, Option.isNone_some, Bool.false_eq_true, if_false]
        rcases had : env.appDataDir with e₃ | dataDir
        · simp [had]
        simp only [had]
        rcases hmk2 : env.mkdirResult
            (temp_root_of dataDir env.timestampMillis) with _ | e₄
        · rcases hrs : runStages env (temp_root_of dataDir env.timestampMillis) m
              (withDefaultExt outp) with ⟨res2, ev2⟩
          simp [hmk2, hrs]
        · simp [hmk2]
    case _ => simp
  · rfl

/-- Witness for C9: a blank-path selection fails validation, yet the output
parent directory was created. -/
theorem output_dir_created_witness :
    MixEvent.createDirAll "d" ∈ (mix_media_tracks c9Env c9Inputs "d/out").2 :=
  output_dir_created_before_validation.1 c9Env c9Inputs "d/out" "d"
    (by decide) rfl rfl

/-- String append acts as list append on the character data. -/
theorem str_data_append (a b : String) : (a ++ b).data = a.data ++ b.data := rfl

/-- Appending a non-empty suffix changes a string. -/
theorem append_ne_self (a b : String) (hb : b ≠ "") : a ++ b ≠ a := by
  intro he
  apply hb
  have hd := congrArg String.data he
  rw [str_data_append] at hd
  have : a.data ++ b.data = a.data ++ [] := by simpa using hd
  have hbd := List.append_cancel_left this
  cases b
  exact congrArg String.mk (by simpa using hbd)

/-- A list equal on both sides of a decomposition around the unique element
satisfying `P` splits identically. -/
theorem unique_middle_split {α : Type} (P : α → Prop) :
    ∀ (A B pre post : List α) (x y : α),
      A ++ x :: B = pre ++ y :: post → P x → P y →
      (∀ a ∈ A, ¬ P a) → (∀ b ∈ B, ¬ P b) →
      A = pre ∧ x = y ∧ B = post := by
  intro A
  induction A with
  | nil =>
    intro B pre post x y h hx hy hA hB
    cases pre with
    | nil =>
      simp only [List.nil_append, List.cons.injEq] at h
      exact ⟨rfl, h.1, h.2⟩
    | cons p pre' =>
      simp only [List.nil_append, List.cons_append, List.cons.injEq] at h
      exact absurd hy (hB y (by rw [h.2]; exact List.mem_append_right _ (List.mem_cons_self _ _)))
  | cons a A' ih =>
    intro B pre post x y h hx hy hA hB
    cases pre with
    | nil =>
      simp only [List.cons_append, List.nil_append, List.cons.injEq] at h
      exact absurd (h.1 ▸ hy) (hA a (List.mem_cons_self _ _))
    | cons p pre' =>
      simp only [List.cons_append, List.cons.injEq] at h
      obtain ⟨m', hxy, hbp⟩ := ih B pre' post x y h.2 hx hy
        (fun b hb => hA b (List.mem_cons_of_mem _ hb)) hB
      exact ⟨by rw [h.1, m'], hxy, hbp⟩

/-- Splitting a concatenation around an element that cannot occur in the
first part locates it in the second. -/
theorem append_split_of_not_head {α : Type} (P : α → Prop) :
    ∀ (l1 l2 pre post : List α) (y : α),
      l1 ++ l2 = pre ++ y :: post → P y → (∀ a ∈ l1, ¬ P a) →
      ∃ pre2, pre = l1 ++ pre2 ∧ l2 = pre2 ++ y :: post := by
  intro l1
  induction l1 with
  | nil =>
    intro l2 pre post y h _ _
    exact ⟨pre, by simp, by simpa using h⟩
  | cons a l1' ih =>
    intro l2 pre post y h hy hA
    cases pre with
    | nil =>
      simp only [List.cons_append, List.nil_append, List.cons.injEq] at h
      exact absurd (h.1 ▸ hy) (hA a (List.mem_cons_self _ _))
    | cons p pre' =>
      simp only [List.cons_append, List.cons.injEq] at h
      obtain ⟨pre2, hp, hl⟩ := ih l2 pre' post y h.2 hy
        (fun b hb => hA b (List.mem_cons_of_mem _ hb))
      exact ⟨pre2, by rw [h.1, hp]; rfl, hl⟩

/-- Inversion of a failing Stage 1 invocation. -/
theorem buildStage_error_inv (env : MixEnv) (tr : String)
    (m : List (String × MixTrackInput)) (kind e : String) (ev : List MixEvent)
    (h : buildStage env tr m kind = (.error e, ev)) :
    ∃ input, List.lookup kind m = some input ∧
      ev = [MixEvent.buildCall kind (build_temp_args kind input tr)] ∧
      run_mkvmerge env.runTool (build_temp_args kind input tr) = .error e := by
  unfold buildStage build_temp_run at h
  rcases hl : List.lookup kind m with _ | input <;> rw [hl] at h
  · simp at h
  · rcases hr : run_mkvmerge env.runTool (build_temp_args kind input tr) with e0 | u
    · simp only [hr, Prod.mk.injEq, Except.error.injEq] at h
      exact ⟨input, rfl, h.2.symm, by rw [hr, h.1]⟩
    · simp [hr] at h

/-- Inversion of a successful (possibly skipped) Stage 1 invocation. -/
theorem buildStage_ok_inv (env : MixEnv) (tr : String)
    (m : List (String × MixTrackInput)) (kind : String) (t : Option String)
    (ev : List MixEvent)
    (h : buildStage env tr m kind = (.ok t, ev)) :
    (t = none ∧ ev = [] ∧ List.lookup kind m = none) ∨
    (∃ input, List.lookup kind m = some input ∧
      t = some (temp_path_for tr kind) ∧
      ev = [MixEvent.buildCall kind (build_temp_args kind input tr)] ∧
      run_mkvmerge env.runTool (build_temp_args kind input tr) = .ok ()) := by
  unfold buildStage build_temp_run at h
  rcases hl : List.lookup kind m with _ | input <;> rw [hl] at h
  · simp only [Prod.mk.injEq, Except.ok.injEq] at h
    exact Or.inl ⟨h.1.symm, h.2.symm, rfl⟩
  · rcases hr : run_mkvmerge env.runTool (build_temp_args kind input tr) with e0 | u
    · simp [hr] at h
    · simp only [hr, Prod.mk.injEq, Except.ok.injEq] at h
      exact Or.inr ⟨input, rfl, h.1.symm, h.2.symm, by rw [hr]⟩

/-- Exhaustive case shape of `runStages`: it stops at the first failing
stage, or reaches the combine, which either fails or succeeds followed by the
cleanup removals. -/
theorem runStages_shape (env : MixEnv) (tr : String)
    (m : List (String × MixTrackInput)) (out : String)
    (res : Except String String) (evs : List MixEvent)
    (h : runStages env tr m out = (res, evs)) :
    (∃ e ev1, res = .error e ∧ evs = ev1 ∧
      buildStage env tr m "video" = (.error e, ev1)) ∨
    (∃ vT evV e ev2, res = .error e ∧ evs = evV ++ ev2 ∧
      buildStage env tr m "video" = (.ok vT, evV) ∧
      buildStage env tr m "audio" = (.error e, ev2)) ∨
    (∃ vT evV aT evA e ev3, res = .error e ∧ evs = evV ++ evA ++ ev3 ∧
      buildStage env tr m "video" = (.ok vT, evV) ∧
      buildStage env tr m "audio" = (.ok aT, evA) ∧
      buildStage env tr m "subtitle" = (.error e, ev3)) ∨
    (∃ vT evV aT evA sT evS e, res = .error e ∧
      evs = evV ++ evA ++ evS
        ++ [MixEvent.combineCall (["-o", out] ++ (vT.toList ++ aT.toList ++ sT.toList))] ∧
      buildStage env tr m "video" = (.ok vT, evV) ∧
      buildStage env tr m "audio" = (.ok aT, evA) ∧
      buildStage env tr m "subtitle" = (.ok sT, evS) ∧
      run_mkvmerge env.runTool
        (["-o", out] ++ (vT.toList ++ aT.toList ++ sT.toList)) = .error e) ∨
    (∃ vT evV aT evA sT evS, res = .ok out ∧
      evs = evV ++ evA ++ evS
        ++ [MixEvent.combineCall (["-o", out] ++ (vT.toList ++ aT.toList ++ sT.toList))]
        ++ (vT.toList ++ aT.toList ++ sT.toList).map MixEvent.removeFile ∧
      buildStage env tr m "video" = (.ok vT, evV) ∧
      buildStage env tr m "audio" = (.ok aT, evA) ∧
      buildStage env tr m "subtitle" = (.ok sT, evS) ∧
      run_mkvmerge env.runTool
        (["-o", out] ++ (vT.toList ++ aT.toList ++ sT.toList)) = .ok ()) := by
  rcases hbv : buildStage env tr m "video" with ⟨bv, evV⟩
  rcases bv with eV | vT
  · have hrun : runStages env tr m out = (.error eV, evV) := by
      simp only [runStages, hbv]
    have hpair := h.symm.trans hrun
    simp only [Prod.mk.injEq] at hpair
    exact Or.inl ⟨eV, evV, hpair.1, hpair.2, rfl⟩
  · rcases hba : buildStage env tr m "audio" with ⟨ba, evA⟩
    rcases ba with eA | aT
    · have hrun : runStages env tr m out = (.error eA, evV ++ evA) := by
        simp only [runStages, hbv, hba]
      have hpair := h.symm.trans hrun
      simp only [Prod.mk.injEq] at hpair
      exact Or.inr (Or.inl ⟨vT, evV, eA, evA, hpair.1, hpair.2, rfl, rfl⟩)
    · rcases hbs : buildStage env tr m "subtitle" with ⟨bs, evS⟩
      rcases bs with eS | sT
      · have hrun : runStages env tr m out = (.error eS, evV ++ evA ++ evS) := by
          simp only [runStages, hbv, hba, hbs]
        have hpair := h.symm.trans hrun
        simp only [Prod.mk.injEq] at hpair
        exact Or.inr (Or.inr (Or.inl
          ⟨vT, evV, aT, evA, eS, evS, hpair.1, hpair.2, rfl, rfl, rfl⟩))
      · rcases hm : run_mkvmerge env.runTool
            (["-o", out] ++ (vT.toList ++ aT.toList ++ sT.toList)) with eM | u
        · have hrun : runStages env tr m out = (.error eM, evV ++ evA ++ evS
              ++ [MixEvent.combineCall
                (["-o", out] ++ (vT.toList ++ aT.toList ++ sT.toList))]) := by
            simp only [runStages, hbv, hba, hbs, hm]
          have hpair := h.symm.trans hrun
          simp only [Prod.mk.injEq] at hpair
          exact Or.inr (Or.inr (Or.inr (Or.inl
            ⟨vT, evV, aT, evA, sT, evS, eM, hpair.1, hpair.2, rfl, rfl, rfl, hm⟩)))
        · have hrun : runStages env tr m out = (.ok out, evV ++ evA ++ evS
              ++ [MixEvent.combineCall
                (["-o", out] ++ (vT.toList ++ aT.toList ++ sT.toList))]
              ++ (vT.toList ++ aT.toList ++ sT.toList).map MixEvent.removeFile) := by
            simp only [runStages, hbv, hba, hbs, hm]
          have hpair := h.symm.trans hrun
          simp only [Prod.mk.injEq] at hpair
          exact Or.inr (Or.inr (Or.inr (Or.inr
            ⟨vT, evV, aT, evA, sT, evS, hpair.1, hpair.2, rfl, rfl, rfl, by rw [hm]⟩)))

/-- The events of one stage are empty or a single build invocation. -/
theorem buildStage_ev_shapes (env : MixEnv) (tr : String)
    (m : List (String × MixTrackInput)) (kind : String)
    (r : Except String (Option String)) (ev : List MixEvent)
    (h : buildStage env tr m kind = (r, ev)) :
    ev = [] ∨ ∃ input, List.lookup kind m = some input ∧
      ev = [MixEvent.buildCall kind (build_temp_args kind input tr)] := by
  rcases r with e | t
  · obtain ⟨input, hl, hev, _⟩ := buildStage_error_inv env tr m kind e ev h
    exact Or.inr ⟨input, hl, hev⟩
  · rcases buildStage_ok_inv env tr m kind t ev h with ⟨_, hev, _⟩ | ⟨input, hl, _, hev, _⟩
    · exact Or.inl hev
    · exact Or.inr ⟨input, hl, hev⟩

/-- A stage emits no removal events. -/
theorem buildStage_no_remove (env : MixEnv) (tr : String)
    (m : List (String × MixTrackInput)) (kind : String)
    (r : Except String (Option String)) (ev : List MixEvent)
    (h : buildStage env tr m kind = (r, ev)) :
    ∀ p, MixEvent.removeFile p ∉ ev := by
  intro p hp
  rcases buildStage_ev_shapes env tr m kind r ev h with rfl | ⟨input, _, rfl⟩ <;> simp at hp

/-- A stage emits no combine events. -/
theorem buildStage_no_combine (env : MixEnv) (tr : String)
    (m : List (String × MixTrackInput)) (kind : String)
    (r : Except String (Option String)) (ev : List MixEvent)
    (h : buildStage env tr m kind = (r, ev)) :
    ∀ a, MixEvent.combineCall a ∉ ev := by
  intro a ha
  rcases buildStage_ev_shapes env tr m kind r ev h with rfl | ⟨input, _, rfl⟩ <;>
    simp at ha

/-- A build event of a stage names that stage's kind and argument list. -/
theorem buildStage_mem_build (env : MixEnv) (tr : String)
    (m : List (String × MixTrackInput)) (kind : String)
    (r : Except String (Option String)) (ev : List MixEvent)
    (h : buildStage env tr m kind = (r, ev)) :
    ∀ k args, MixEvent.buildCall k args ∈ ev →
      k = kind ∧ ∃ input, List.lookup kind m = some input ∧
        args = build_temp_args kind input tr := by
  intro k args hmem
  rcases buildStage_ev_shapes env tr m kind r ev h with rfl | ⟨input, hl, rfl⟩
  · simp at hmem
  · simp only [List.mem_singleton, MixEvent.buildCall.injEq] at hmem
    exact ⟨hmem.1, input, hl, hmem.2⟩

/-- A build event of a successful stage succeeded, and its second argument is
the intermediate path that the stage reported. -/
theorem buildStage_ok_mem_build (env : MixEnv) (tr : String)
    (m : List (String × MixTrackInput)) (kind : String) (t : Option String)
    (ev : List MixEvent) (h : buildStage env tr m kind = (.ok t, ev)) :
    ∀ k args, MixEvent.buildCall k args ∈ ev →
      k = kind ∧ t = some (temp_path_for tr kind) ∧
      List.get? args 1 = some (temp_path_for tr kind) ∧
      run_mkvmerge env.runTool args = .ok () := by
  intro k args hmem
  rcases buildStage_ok_inv env tr m kind t ev h with ⟨_, rfl, _⟩ | ⟨input, hl, ht, rfl, hr⟩
  · simp at hmem
  · simp only [List.mem_singleton, MixEvent.buildCall.injEq] at hmem
    obtain ⟨rfl, rfl⟩ := hmem
    exact ⟨rfl, ht, rfl, hr⟩

/-- An intermediate-artifact path never equals the temporary directory. -/
theorem temp_path_ne_root (tr kind : String) : temp_path_for tr kind ≠ tr := by
  unfold temp_path_for
  have h : tr ++ "/" ++ kind ++ "." ++ temp_ext_for_kind kind
      = tr ++ ("/" ++ (kind ++ ("." ++ temp_ext_for_kind kind))) := by
    simp [String.append_assoc]
  rw [h]
  apply append_ne_self
  intro hc
  have hd := congrArg String.data hc
  simp [str_data_append] at hd

/-- A failed pipeline run performs no removals. -/
theorem runStages_error_no_remove (env : MixEnv) (tr : String)
    (m : List (String × MixTrackInput)) (out e : String) (evs : List MixEvent)
    (h : runStages env tr m out = (.error e, evs)) :
    ∀ p, MixEvent.removeFile p ∉ evs := by
  intro p hp
  rcases runStages_shape env tr m out _ _ h with
    ⟨e1, ev1, _, rfl, hb⟩ |
    ⟨vT, evV, e1, ev2, _, rfl, hbv, hba⟩ |
    ⟨vT, evV, aT, evA, e1, ev3, _, rfl, hbv, hba, hbs⟩ |
    ⟨vT, evV, aT, evA, sT, evS, e1, _, rfl, hbv, hba, hbs, hm⟩ |
    ⟨vT, evV, aT, evA, sT, evS, hres, _⟩
  · exact buildStage_no_remove env tr m "video" _ _ hb p hp
  · rcases List.mem_append.mp hp with h1 | h2
    · exact buildStage_no_remove env tr m "video" _ _ hbv p h1
    · exact buildStage_no_remove env tr m "audio" _ _ hba p h2
  · rcases List.mem_append.mp hp with h1 | h2
    · rcases List.mem_append.mp h1 with h3 | h4
      · exact buildStage_no_remove env tr m "video" _ _ hbv p h3
      · exact buildStage_no_remove env tr m "audio" _ _ hba p h4
    · exact buildStage_no_remove env tr m "subtitle" _ _ hbs p h2
  · rcases List.mem_append.mp hp with h1 | h2
    · rcases List.mem_append.mp h1 with h3 | h4
      · rcases List.mem_append.mp h3 with h5 | h6
        · exact buildStage_no_remove env tr m "video" _ _ hbv p h5
        · exact buildStage_no_remove env tr m "audio" _ _ hba p h6
      · exact buildStage_no_remove env tr m "subtitle" _ _ hbs p h4
    · simp at h2
  · exact absurd hres (by simp)

/-- Membership in a three-part concatenation. -/
theorem mem_split3 {α : Type} (x : α) (A B C : List α) :
    x ∈ A ++ B ++ C ↔ x ∈ A ∨ x ∈ B ∨ x ∈ C := by
  simp [List.mem_append, or_assoc]

/-- Membership in the trace of a failed combine. -/
theorem mem_split4 {α : Type} (x : α) (A B C : List α) (c : α) :
    x ∈ A ++ B ++ C ++ [c] ↔ x ∈ A ∨ x ∈ B ∨ x ∈ C ∨ x = c := by
  simp [List.mem_append, or_assoc]

/-- Membership in the trace of a completed pipeline. -/
theorem mem_split5 {α : Type} (x : α) (A B C : List α) (c : α) (D : List α) :
    x ∈ A ++ B ++ C ++ [c] ++ D ↔ x ∈ A ∨ x ∈ B ∨ x ∈ C ∨ x = c ∨ x ∈ D := by
  simp [List.mem_append, or_assoc]

/-- Every build event of a pipeline run belongs to one of the three Stage 1
kinds and carries exactly the argument list built for that kind's
consolidated selection. -/
theorem runStages_mem_build (env : MixEnv) (tr : String)
    (m : List (String × MixTrackInput)) (out : String)
    (res : Except String String) (evs : List MixEvent)
    (h : runStages env tr m out = (res, evs)) :
    ∀ kind args, MixEvent.buildCall kind args ∈ evs →
      kind ∈ (["video", "audio", "subtitle"] : List String) ∧
      ∃ input, List.lookup kind m = some input ∧
        args = build_temp_args kind input tr := by
  intro kind args hmem
  have resolve : ∀ kind' r ev, buildStage env tr m kind' = (r, ev) →
      MixEvent.buildCall kind args ∈ ev →
      kind = kind' ∧ ∃ input, List.lookup kind' m = some input ∧
        args = build_temp_args kind' input tr :=
    fun kind' r ev hb hm => buildStage_mem_build env tr m kind' r ev hb kind args hm
  rcases runStages_shape env tr m out _ _ h with
    ⟨e1, ev1, _, rfl, hb⟩ |
    ⟨vT, evV, e1, ev2, _, rfl, hbv, hba⟩ |
    ⟨vT, evV, aT, evA, e1, ev3, _, rfl, hbv, hba, hbs⟩ |
    ⟨vT, evV, aT, evA, sT, evS, e1, _, rfl, hbv, hba, hbs, hm⟩ |
    ⟨vT, evV, aT, evA, sT, evS, _, rfl, hbv, hba, hbs, hm⟩
  · obtain ⟨rfl, hrest⟩ := resolve _ _ _ hb hmem
    exact ⟨by simp, hrest⟩
  · rcases List.mem_append.mp hmem with h1 | h2
    · obtain ⟨rfl, hrest⟩ := resolve _ _ _ hbv h1
      exact ⟨by simp, hrest⟩
    · obtain ⟨rfl, hrest⟩ := resolve _ _ _ hba h2
      exact ⟨by simp, hrest⟩
  · rcases (mem_split3 _ _ _ _).mp hmem with h1 | h2 | h3
    · obtain ⟨rfl, hrest⟩ := resolve _ _ _ hbv h1
      exact ⟨by simp, hrest⟩
    · obtain ⟨rfl, hrest⟩ := resolve _ _ _ hba h2
      exact ⟨by simp, hrest⟩
    · obtain ⟨rfl, hrest⟩ := resolve _ _ _ hbs h3
      exact ⟨by simp, hrest⟩
  · rcases (mem_split4 _ _ _ _ _).mp hmem with h1 | h2 | h3 | h4
    · obtain ⟨rfl, hrest⟩ := resolve _ _ _ hbv h1
      exact ⟨by simp, hrest⟩
    · obtain ⟨rfl, hrest⟩ := resolve _ _ _ hba h2
      exact ⟨by simp, hrest⟩
    · obtain ⟨rfl, hrest⟩ := resolve _ _ _ hbs h3
      exact ⟨by simp, hrest⟩
    · simp at h4
  · rcases (mem_split5 _ _ _ _ _ _).mp hmem with h1 | h2 | h3 | h4 | h5
    · obtain ⟨rfl, hrest⟩ := resolve _ _ _ hbv h1
      exact ⟨by simp, hrest⟩
    · obtain ⟨rfl, hrest⟩ := resolve _ _ _ hba h2
      exact ⟨by simp, hrest⟩
    · obtain ⟨rfl, hrest⟩ := resolve _ _ _ hbs h3
      exact ⟨by simp, hrest⟩
    · simp at h4
    · obtain ⟨q, _, hq⟩ := List.mem_map.mp h5
      simp at hq

/-- A pipeline run invokes Stage 1 at most once per kind. -/
theorem runStages_build_unique (env : MixEnv) (tr : String)
    (m : List (String × MixTrackInput)) (out : String)
    (res : Except String String) (evs : List MixEvent)
    (h : runStages env tr m out = (res, evs)) :
    ∀ kind args args', MixEvent.buildCall kind args ∈ evs →
      MixEvent.buildCall kind args' ∈ evs → args = args' := by
  intro kind args args' h1 h2
  obtain ⟨_, i1, hl1, rfl⟩ := runStages_mem_build env tr m out res evs h kind args h1
  obtain ⟨_, i2, hl2, rfl⟩ := runStages_mem_build env tr m out res evs h kind args' h2
  obtain rfl := Option.some.inj (hl1.symm.trans hl2)
  rfl

/-- After a successful pipeline run, every Stage 1 build's intermediate
artifact is removed, every removal targets such an artifact, and the
temporary directory itself is never removed. -/
theorem runStages_ok_cleanup (env : MixEnv) (tr : String)
    (m : List (String × MixTrackInput)) (out o : String) (evs : List MixEvent)
    (h : runStages env tr m out = (.ok o, evs)) :
    (∀ kind args, MixEvent.buildCall kind args ∈ evs →
      ∃ p, List.get? args 1 = some p ∧ MixEvent.removeFile p ∈ evs) ∧
    (∀ p, MixEvent.removeFile p ∈ evs →
      ∃ kind args, MixEvent.buildCall kind args ∈ evs ∧ List.get? args 1 = some p) ∧
    (∀ p, MixEvent.removeFile p ∈ evs → p ≠ tr) := by
  rcases runStages_shape env tr m out _ _ h with
    ⟨e1, ev1, hres, _⟩ | ⟨vT, evV, e1, ev2, hres, _⟩ |
    ⟨vT, evV, aT, evA, e1, ev3, hres, _⟩ |
    ⟨vT, evV, aT, evA, sT, evS, e1, hres, _⟩ |
    ⟨vT, evV, aT, evA, sT, evS, _, rfl, hbv, hba, hbs, hm⟩
  · exact absurd hres (by simp)
  · exact absurd hres (by simp)
  · exact absurd hres (by simp)
  · exact absurd hres (by simp)
  · refine ⟨?_, ?_, ?_⟩
    · intro kind args hmem
      rcases (mem_split5 _ _ _ _ _ _).mp hmem with h1 | h2 | h3 | h4 | h5
      · obtain ⟨rfl, hvt, hget, _⟩ := buildStage_ok_mem_build env tr m "video" vT evV hbv kind args h1
        refine ⟨temp_path_for tr "video", hget, (mem_split5 _ _ _ _ _ _).mpr ?_⟩
        refine Or.inr (Or.inr (Or.inr (Or.inr (List.mem_map_of_mem _ ?_))))
        rw [hvt]
        simp
      · obtain ⟨rfl, hat, hget, _⟩ := buildStage_ok_mem_build env tr m "audio" aT evA hba kind args h2
        refine ⟨temp_path_for tr "audio", hget, (mem_split5 _ _ _ _ _ _).mpr ?_⟩
        refine Or.inr (Or.inr (Or.inr (Or.inr (List.mem_map_of_mem _ ?_))))
        rw [hat]
        simp
      · obtain ⟨rfl, hst, hget, _⟩ := buildStage_ok_mem_build env tr m "subtitle" sT evS hbs kind args h3
        refine ⟨temp_path_for tr "subtitle", hget, (mem_split5 _ _ _ _ _ _).mpr ?_⟩
        refine Or.inr (Or.inr (Or.inr (Or.inr (List.mem_map_of_mem _ ?_))))
        rw [hst]
        simp
      · simp at h4
      · obtain ⟨q, _, hq⟩ := List.mem_map.mp h5
        simp at hq
    · intro p hp
      rcases (mem_split5 _ _ _ _ _ _).mp hp with h1 | h2 | h3 | h4 | h5
      · exact absurd h1 (buildStage_no_remove env tr m "video" _ _ hbv p)
      · exact absurd h2 (buildStage_no_remove env tr m "audio" _ _ hba p)
      · exact absurd h3 (buildStage_no_remove env tr m "subtitle" _ _ hbs p)
      · simp at h4
      · obtain ⟨q, hq, hqe⟩ := List.mem_map.mp h5
        obtain rfl : p = q := by simpa using hqe.symm
        rcases (mem_split3 _ _ _ _).mp hq with hv | ha | hs
        · have hvt : vT = some p := by simpa using hv
          rcases buildStage_ok_inv env tr m "video" vT evV hbv with ⟨hnone, _, _⟩ |
            ⟨input, hl, ht, hev, _⟩
          · rw [hnone] at hvt; simp at hvt
          · obtain rfl : p = temp_path_for tr "video" := by
              rw [ht] at hvt; exact (Option.some.inj hvt).symm
            refine ⟨"video", build_temp_args "video" input tr,
              (mem_split5 _ _ _ _ _ _).mpr (Or.inl ?_), rfl⟩
            rw [hev]; simp
        · have hat : aT = some p := by simpa using ha
          rcases buildStage_ok_inv env tr m "audio" aT evA hba with ⟨hnone, _, _⟩ |
            ⟨input, hl, ht, hev, _⟩
          · rw [hnone] at hat; simp at hat
          · obtain rfl : p = temp_path_for tr "audio" := by
              rw [ht] at hat; exact (Option.some.inj hat).symm
            refine ⟨"audio", build_temp_args "audio" input tr,
              (mem_split5 _ _ _ _ _ _).mpr (Or.inr (Or.inl ?_)), rfl⟩
            rw [hev]; simp
        · have hst : sT = some p := by simpa using hs
          rcases buildStage_ok_inv env tr m "subtitle" sT evS hbs with ⟨hnone, _, _⟩ |
            ⟨input, hl, ht, hev, _⟩
          · rw [hnone] at hst; simp at hst
          · obtain rfl : p = temp_path_for tr "subtitle" := by
              rw [ht] at hst; exact (Option.some.inj hst).symm
            refine ⟨"subtitle", build_temp_args "subtitle" input tr,
              (mem_split5 _ _ _ _ _ _).mpr (Or.inr (Or.inr (Or.inl ?_))), rfl⟩
            rw [hev]; simp
    · intro p hp
      rcases (mem_split5 _ _ _ _ _ _).mp hp with h1 | h2 | h3 | h4 | h5
      · exact absurd h1 (buildStage_no_remove env tr m "video" _ _ hbv p)
      · exact absurd h2 (buildStage_no_remove env tr m "audio" _ _ hba p)
      · exact absurd h3 (buildStage_no_remove env tr m "subtitle" _ _ hbs p)
      · simp at h4
      · obtain ⟨q, hq, hqe⟩ := List.mem_map.mp h5
        obtain rfl : p = q := by simpa using hqe.symm
        rcases (mem_split3 _ _ _ _).mp hq with hv | ha | hs
        · have hvt : vT = some p := by simpa using hv
          rcases buildStage_ok_inv env tr m "video" vT evV hbv with ⟨hnone, _, _⟩ |
            ⟨input, _, ht, _, _⟩
          · rw [hnone] at hvt; simp at hvt
          · obtain rfl : p = temp_path_for tr "video" := by
              rw [ht] at hvt; exact (Option.some.inj hvt).symm
            exact temp_path_ne_root tr "video"
        · have hat : aT = some p := by simpa using ha
          rcases buildStage_ok_inv env tr m "audio" aT evA hba with ⟨hnone, _, _⟩ |
            ⟨input, _, ht, _, _⟩
          · rw [hnone] at hat; simp at hat
          · obtain rfl : p = temp_path_for tr "audio" := by
              rw [ht] at hat; exact (Option.some.inj hat).symm
            exact temp_path_ne_root tr "audio"
        · have hst : sT = some p := by simpa using hs
          rcases buildStage_ok_inv env tr m "subtitle" sT evS hbs with ⟨hnone, _, _⟩ |
            ⟨input, _, ht, _, _⟩
          · rw [hnone] at hst; simp at hst
          · obtain rfl : p = temp_path_for tr "subtitle" := by
              rw [ht] at hst; exact (Option.some.inj hst).symm
            exact temp_path_ne_root tr "subtitle"

/-- Whenever the Stage 2 combine invocation appears in a pipeline trace,
every kind with a consolidated selection had its Stage 1 invocation strictly
before the combine, and that invocation succeeded. -/
theorem runStages_combine_after (env : MixEnv) (tr : String)
    (m : List (String × MixTrackInput)) (out : String)
    (res : Except String String) (evs : List MixEvent)
    (h : runStages env tr m out = (res, evs)) :
    ∀ pre args post, evs = pre ++ MixEvent.combineCall args :: post →
      ∀ kind input, List.lookup kind m = some input →
        kind ∈ (["video", "audio", "subtitle"] : List String) →
        MixEvent.buildCall kind (build_temp_args kind input tr) ∈ pre ∧
        run_mkvmerge env.runTool (build_temp_args kind input tr) = .ok () := by
  intro pre args post hdec kind input hk hkin
  have hcmem : MixEvent.combineCall args ∈ evs := by
    rw [hdec]; exact List.mem_append_right _ (List.mem_cons_self _ _)
  rcases runStages_shape env tr m out _ _ h with
    ⟨e1, ev1, _, rfl, hb⟩ |
    ⟨vT, evV, e1, ev2, _, rfl, hbv, hba⟩ |
    ⟨vT, evV, aT, evA, e1, ev3, _, rfl, hbv, hba, hbs⟩ |
    ⟨vT, evV, aT, evA, sT, evS, e1, _, rfl, hbv, hba, hbs, hm⟩ |
    ⟨vT, evV, aT, evA, sT, evS, _, rfl, hbv, hba, hbs, hm⟩
  · exact absurd hcmem (buildStage_no_combine env tr m "video" _ _ hb args)
  · rcases List.mem_append.mp hcmem with h1 | h2
    · exact absurd h1 (buildStage_no_combine env tr m "video" _ _ hbv args)
    · exact absurd h2 (buildStage_no_combine env tr m "audio" _ _ hba args)
  · rcases (mem_split3 _ _ _ _).mp hcmem with h1 | h2 | h3
    · exact absurd h1 (buildStage_no_combine env tr m "video" _ _ hbv args)
    · exact absurd h2 (buildStage_no_combine env tr m "audio" _ _ hba args)
    · exact absurd h3 (buildStage_no_combine env tr m "subtitle" _ _ hbs args)
  · have hre : evV ++ evA ++ evS
        ++ [MixEvent.combineCall (["-o", out] ++ (vT.toList ++ aT.toList ++ sT.toList))]
        = (evV ++ evA ++ evS) ++ MixEvent.combineCall
            (["-o", out] ++ (vT.toList ++ aT.toList ++ sT.toList)) :: ([] : List MixEvent) := by
      simp
    obtain ⟨hpre, hcc, -⟩ := unique_middle_split
      (fun ev => ∃ a, ev = MixEvent.combineCall a)
      (evV ++ evA ++ evS) [] pre post _ _ (hre.symm.trans hdec)
      ⟨_, rfl⟩ ⟨args, rfl⟩
      (by intro a ha hP
          obtain ⟨ar, rfl⟩ := hP
          rcases (mem_split3 _ _ _ _).mp ha with h1 | h2 | h3
          · exact buildStage_no_combine env tr m "video" _ _ hbv ar h1
          · exact buildStage_no_combine env tr m "audio" _ _ hba ar h2
          · exact buildStage_no_combine env tr m "subtitle" _ _ hbs ar h3)
      (by intro b hb; simp at hb)
    rw [← hpre]
    simp only [List.mem_cons, List.not_mem_nil, or_false] at hkin
    rcases hkin with rfl | rfl | rfl
    · rcases buildStage_ok_inv env tr m "video" vT evV hbv with ⟨_, _, hnone⟩ |
        ⟨input0, hl0, _, hev, hr⟩
      · rw [hnone] at hk; cases hk
      · obtain rfl := Option.some.inj (hl0.symm.trans hk)
        exact ⟨(mem_split3 _ _ _ _).mpr (Or.inl (by rw [hev]; simp)), hr⟩
    · rcases buildStage_ok_inv env tr m "audio" aT evA hba with ⟨_, _, hnone⟩ |
        ⟨input0, hl0, _, hev, hr⟩
      · rw [hnone] at hk; cases hk
      · obtain rfl := Option.some.inj (hl0.symm.trans hk)
        exact ⟨(mem_split3 _ _ _ _).mpr (Or.inr (Or.inl (by rw [hev]; simp))), hr⟩
    · rcases buildStage_ok_inv env tr m "subtitle" sT evS hbs with ⟨_, _, hnone⟩ |
        ⟨input0, hl0, _, hev, hr⟩
      · rw [hnone] at hk; cases hk
      · obtain rfl := Option.some.inj (hl0.symm.trans hk)
        exact ⟨(mem_split3 _ _ _ _).mpr (Or.inr (Or.inr (by rw [hev]; simp))), hr⟩
  · have hre : evV ++ evA ++ evS
        ++ [MixEvent.combineCall (["-o", out] ++ (vT.toList ++ aT.toList ++ sT.toList))]
        ++ (vT.toList ++ aT.toList ++ sT.toList).map MixEvent.removeFile
        = (evV ++ evA ++ evS) ++ MixEvent.combineCall
            (["-o", out] ++ (vT.toList ++ aT.toList ++ sT.toList))
          :: (vT.toList ++ aT.toList ++ sT.toList).map MixEvent.removeFile := by
      simp
    obtain ⟨hpre, hcc, -⟩ := unique_middle_split
      (fun ev => ∃ a, ev = MixEvent.combineCall a)
      (evV ++ evA ++ evS) ((vT.toList ++ aT.toList ++ sT.toList).map MixEvent.removeFile)
      pre post _ _ (hre.symm.trans hdec)
      ⟨_, rfl⟩ ⟨args, rfl⟩
      (by intro a ha hP
          obtain ⟨ar, rfl⟩ := hP
          rcases (mem_split3 _ _ _ _).mp ha with h1 | h2 | h3
          · exact buildStage_no_combine env tr m "video" _ _ hbv ar h1
          · exact buildStage_no_combine env tr m "audio" _ _ hba ar h2
          · exact buildStage_no_combine env tr m "subtitle" _ _ hbs ar h3)
      (by intro b hb hP
          obtain ⟨ar, rfl⟩ := hP
          obtain ⟨q, _, hq⟩ := List.mem_map.mp hb
          simp at hq)
    rw [← hpre]
    simp only [List.mem_cons, List.not_mem_nil, or_false] at hkin
    rcases hkin with rfl | rfl | rfl
    · rcases buildStage_ok_inv env tr m "video" vT evV hbv with ⟨_, _, hnone⟩ |
        ⟨input0, hl0, _, hev, hr⟩
      · rw [hnone] at hk; cases hk
      · obtain rfl := Option.some.inj (hl0.symm.trans hk)
        exact ⟨(mem_split3 _ _ _ _).mpr (Or.inl (by rw [hev]; simp)), hr⟩
    · rcases buildStage_ok_inv env tr m "audio" aT evA hba with ⟨_, _, hnone⟩ |
        ⟨input0, hl0, _, hev, hr⟩
      · rw [hnone] at hk; cases hk
      · obtain rfl := Option.some.inj (hl0.symm.trans hk)
        exact ⟨(mem_split3 _ _ _ _).mpr (Or.inr (Or.inl (by rw [hev]; simp))), hr⟩
    · rcases buildStage_ok_inv env tr m "subtitle" sT evS hbs with ⟨_, _, hnone⟩ |
        ⟨input0, hl0, _, hev, hr⟩
      · rw [hnone] at hk; cases hk
      · obtain rfl := Option.some.inj (hl0.symm.trans hk)
        exact ⟨(mem_split3 _ _ _ _).mpr (Or.inr (Or.inr (by rw [hev]; simp))), hr⟩

/-- A failing Stage 1 invocation terminates the pipeline with that exact
error, and the Stage 2 combine is never invoked. -/
theorem runStages_build_fail (env : MixEnv) (tr : String)
    (m : List (String × MixTrackInput)) (out : String)
    (res : Except String String) (evs : List MixEvent)
    (h : runStages env tr m out = (res, evs)) :
    ∀ kind args, MixEvent.buildCall kind args ∈ evs →
      ∀ e, run_mkvmerge env.runTool args = .error e →
      res = .error e ∧ ∀ cargs, MixEvent.combineCall cargs ∉ evs := by
  intro kind args hmem e herr
  rcases runStages_shape env tr m out _ _ h with
    ⟨e1, ev1, hres, rfl, hb⟩ |
    ⟨vT, evV, e1, ev2, hres, rfl, hbv, hba⟩ |
    ⟨vT, evV, aT, evA, e1, ev3, hres, rfl, hbv, hba, hbs⟩ |
    ⟨vT, evV, aT, evA, sT, evS, e1, hres, rfl, hbv, hba, hbs, hm⟩ |
    ⟨vT, evV, aT, evA, sT, evS, hres, rfl, hbv, hba, hbs, hm⟩
  · obtain ⟨input, hl, hev, hr⟩ := buildStage_error_inv env tr m "video" e1 _ hb
    rw [hev] at hmem
    simp only [List.mem_singleton, MixEvent.buildCall.injEq] at hmem
    obtain ⟨rfl, rfl⟩ := hmem
    obtain rfl := Except.error.inj (hr.symm.trans herr)
    refine ⟨hres, ?_⟩
    intro cargs hc
    rw [hev] at hc
    simp at hc
  · rcases List.mem_append.mp hmem with h1 | h2
    · obtain ⟨rfl, _, _, hr⟩ := buildStage_ok_mem_build env tr m "video" vT evV hbv kind args h1
      exact absurd (hr.symm.trans herr) (by simp)
    · obtain ⟨input, hl, hev, hr⟩ := buildStage_error_inv env tr m "audio" e1 _ hba
      rw [hev] at h2
      simp only [List.mem_singleton, MixEvent.buildCall.injEq] at h2
      obtain ⟨rfl, rfl⟩ := h2
      obtain rfl := Except.error.inj (hr.symm.trans herr)
      refine ⟨hres, ?_⟩
      intro cargs hc
      rcases List.mem_append.mp hc with hc1 | hc2
      · exact buildStage_no_combine env tr m "video" _ _ hbv cargs hc1
      · rw [hev] at hc2; simp at hc2
  · rcases (mem_split3 _ _ _ _).mp hmem with h1 | h2 | h3
    · obtain ⟨rfl, _, _, hr⟩ := buildStage_ok_mem_build env tr m "video" vT evV hbv kind args h1
      exact absurd (hr.symm.trans herr) (by simp)
    · obtain ⟨rfl, _, _, hr⟩ := buildStage_ok_mem_build env tr m "audio" aT evA hba kind args h2
      exact absurd (hr.symm.trans herr) (by simp)
    · obtain ⟨input, hl, hev, hr⟩ := buildStage_error_inv env tr m "subtitle" e1 _ hbs
      rw [hev] at h3
      simp only [List.mem_singleton, MixEvent.buildCall.injEq] at h3
      obtain ⟨rfl, rfl⟩ := h3
      obtain rfl := Except.error.inj (hr.symm.trans herr)
      refine ⟨hres, ?_⟩
      intro cargs hc
      rcases (mem_split3 _ _ _ _).mp hc with hc1 | hc2 | hc3
      · exact buildStage_no_combine env tr m "video" _ _ hbv cargs hc1
      · exact buildStage_no_combine env tr m "audio" _ _ hba cargs hc2
      · rw [hev] at hc3; simp at hc3
  · rcases (mem_split4 _ _ _ _ _).mp hmem with h1 | h2 | h3 | h4
    · obtain ⟨rfl, _, _, hr⟩ := buildStage_ok_mem_build env tr m "video" vT evV hbv kind args h1
      exact absurd (hr.symm.trans herr) (by simp)
    · obtain ⟨rfl, _, _, hr⟩ := buildStage_ok_mem_build env tr m "audio" aT evA hba kind args h2
      exact absurd (hr.symm.trans herr) (by simp)
    · obtain ⟨rfl, _, _, hr⟩ := buildStage_ok_mem_build env tr m "subtitle" sT evS hbs kind args h3
      exact absurd (hr.symm.trans herr) (by simp)
    · simp at h4
  · rcases (mem_split5 _ _ _ _ _ _).mp hmem with h1 | h2 | h3 | h4 | h5
    · obtain ⟨rfl, _, _, hr⟩ := buildStage_ok_mem_build env tr m "video" vT evV hbv kind args h1
      exact absurd (hr.symm.trans herr) (by simp)
    · obtain ⟨rfl, _, _, hr⟩ := buildStage_ok_mem_build env tr m "audio" aT evA hba kind args h2
      exact absurd (hr.symm.trans herr) (by simp)
    · obtain ⟨rfl, _, _, hr⟩ := buildStage_ok_mem_build env tr m "subtitle" sT evS hbs kind args h3
      exact absurd (hr.symm.trans herr) (by simp)
    · simp at h4
    · obtain ⟨q, _, hq⟩ := List.mem_map.mp h5
      simp at hq

/-- The output-parent step only ever emits directory-creation events. -/
theorem ensureParentDir_events (env : MixEnv) (out : String)
    (r : Except String Unit) (ev : List MixEvent)
    (h : ensureParentDir env out = (r, ev)) :
    ∀ x ∈ ev, ∃ p, x = MixEvent.createDirAll p := by
  rcases hpar : parentOf out with _ | par
  · have he : ensureParentDir env out = (.ok (), []) := by
      unfold ensureParentDir
      rw [hpar]
    have hpr := h.symm.trans he
    simp only [Prod.mk.injEq] at hpr
    rw [hpr.2]
    simp
  · by_cases hfs : env.fsExists par
    · have he : ensureParentDir env out = (.ok (), []) := by
        unfold ensureParentDir
        rw [hpar]
        simp [hfs]
      have hpr := h.symm.trans he
      simp only [Prod.mk.injEq] at hpr
      rw [hpr.2]
      simp
    · rcases hmk : env.mkdirResult par with _ | e0
      · have he : ensureParentDir env out = (.ok (), [MixEvent.createDirAll par]) := by
          unfold ensureParentDir
          rw [hpar]
          simp [hfs, hmk]
        have hpr := h.symm.trans he
        simp only [Prod.mk.injEq] at hpr
        rw [hpr.2]
        intro x hx
        exact ⟨par, List.mem_singleton.mp hx⟩
      · have he : ensureParentDir env out
            = (.error ("创建输出目录失败: " ++ e0), [MixEvent.createDirAll par]) := by
          unfold ensureParentDir
          rw [hpar]
          simp [hfs, hmk]
        have hpr := h.symm.trans he
        simp only [Prod.mk.injEq] at hpr
        rw [hpr.2]
        intro x hx
        exact ⟨par, List.mem_singleton.mp hx⟩

/-- Case shape of a whole mix call: either it stops during setup or
validation, having emitted only directory creations, or the setup succeeded
and the trace is the setup events followed by the pipeline events. -/
theorem mix_cases (env : MixEnv) (inputs : List MixTrackInput) (outp : String)
    (res : Except String String) (evs : List MixEvent)
    (h : mix_media_tracks env inputs outp = (res, evs)) :
    ((∀ ev ∈ evs, ∃ p, ev = MixEvent.createDirAll p) ∧ ∃ e, res = .error e) ∨
    (∃ ev1 m dataDir res2 ev2,
      evs = ev1 ++ ev2 ∧ (∀ ev ∈ ev1, ∃ p, ev = MixEvent.createDirAll p) ∧
      groupLoop env.fsExists [] inputs = .ok m ∧
      env.appDataDir = .ok dataDir ∧
      runStages env (temp_root_of dataDir env.timestampMillis) m (withDefaultExt outp)
        = (res2, ev2) ∧
      res = res2) := by
  by_cases hni : inputs.isEmpty
  · rw [mix_media_tracks, if_pos hni] at h
    simp only [Prod.mk.injEq] at h
    exact Or.inl ⟨by rw [← h.2]; simp, _, h.1.symm⟩
  · rw [mix_media_tracks, if_neg hni] at h
    rcases hens : ensureParentDir env (withDefaultExt outp) with ⟨ensr, ev0⟩
    have hev0 := ensureParentDir_events env (withDefaultExt outp) ensr ev0 hens
    rcases ensr with e | u <;> simp only [hens] at h
    · simp only [Prod.mk.injEq] at h
      exact Or.inl ⟨by rw [← h.2]; exact hev0, _, h.1.symm⟩
    · rcases hrm : env.resolveMkvmerge with e | u2 <;> simp only [hrm] at h
      · simp only [Prod.mk.injEq] at h
        exact Or.inl ⟨by rw [← h.2]; exact hev0, _, h.1.symm⟩
      · rcases hg : groupLoop env.fsExists [] inputs with e | m <;> simp only [hg] at h
        · simp only [Prod.mk.injEq] at h
          exact Or.inl ⟨by rw [← h.2]; exact hev0, _, h.1.symm⟩
        · rcases hvid : List.lookup "video" m with _ | vi <;>
            simp only [hvid, Option.isNone_none, Option.isNone_some, if_true,
              Bool.false_eq_true, if_false] at h
          · simp only [Prod.mk.injEq] at h
            exact Or.inl ⟨by rw [← h.2]; exact hev0, _, h.1.symm⟩
          · rcases had : env.appDataDir with e | dataDir <;> simp only [had] at h
            · simp only [Prod.mk.injEq] at h
              exact Or.inl ⟨by rw [← h.2]; exact hev0, _, h.1.symm⟩
            · rcases hmk2 : env.mkdirResult
                  (temp_root_of dataDir env.timestampMillis) with _ | e <;>
                simp only [hmk2] at h
              · rcases hrs : runStages env (temp_root_of dataDir env.timestampMillis) m
                    (withDefaultExt outp) with ⟨res2, ev2⟩
                simp only [hrs] at h
                simp only [Prod.mk.injEq] at h
                refine Or.inr ⟨ev0 ++ [MixEvent.createDirAll
                    (temp_root_of dataDir env.timestampMillis)], m, dataDir, res2, ev2,
                  by rw [← h.2], ?_, rfl, rfl, hrs, h.1.symm⟩
                intro ev hev
                rcases List.mem_append.mp hev with h1 | h2
                · exact hev0 ev h1
                · exact ⟨_, List.mem_singleton.mp h2⟩
              · simp only [Prod.mk.injEq] at h
                refine Or.inl ⟨?_, _, h.1.symm⟩
                rw [← h.2]
                intro ev hev
                rcases List.mem_append.mp hev with h1 | h2
                · exact hev0 ev h1
                · exact ⟨_, List.mem_singleton.mp h2⟩

/-- C6: the Stage 2 combine invocation never occurs before every selected
kind's Stage 1 invocation has completed successfully; a Stage 1 failure makes
the whole mix return that error with no combine invocation and no retry (at
most one Stage 1 invocation per kind ever occurs). -/
theorem stage2_gated_on_stage1 :
    ∀ (env : MixEnv) (inputs : List MixTrackInput) (outp : String)
      (res : Except String String) (evs : List MixEvent),
      mix_media_tracks env inputs outp = (res, evs) →
      (∀ pre args post, evs = pre ++ MixEvent.combineCall args :: post →
        ∀ m, groupLoop env.fsExists [] inputs = .ok m →
        ∀ kind input, List.lookup kind m = some input →
          kind ∈ (["video", "audio", "subtitle"] : List String) →
          ∃ bargs, MixEvent.buildCall kind bargs ∈ pre ∧
            run_mkvmerge env.runTool bargs = .ok ()) ∧
      (∀ kind args, MixEvent.buildCall kind args ∈ evs →
        ∀ e, run_mkvmerge env.runTool args = .error e →
          res = .error e ∧ ∀ cargs, MixEvent.combineCall cargs ∉ evs) ∧
      (∀ kind args args', MixEvent.buildCall kind args ∈ evs →
        MixEvent.buildCall kind args' ∈ evs → args = args') := by
  intro env inputs outp res evs h
  rcases mix_cases env inputs outp res evs h with ⟨hcd, e, rfl⟩ |
    ⟨ev1, m0, dataDir, res2, ev2, rfl, hev1, hg0, had, hrs, rfl⟩
  · refine ⟨?_, ?_, ?_⟩
    · intro pre args post hdec
      have : MixEvent.combineCall args ∈ evs := by
        rw [hdec]; exact List.mem_append_right _ (List.mem_cons_self _ _)
      obtain ⟨p, hp⟩ := hcd _ this
      cases hp
    · intro kind args hmem e' herr
      obtain ⟨p, hp⟩ := hcd _ hmem
      cases hp
    · intro kind args args' h1 h2
      obtain ⟨p, hp⟩ := hcd _ h1
      cases hp
  · refine ⟨?_, ?_, ?_⟩
    · intro pre args post hdec m hg kind input hk hkin
      obtain rfl := Except.ok.inj (hg0.symm.trans hg)
      obtain ⟨pre2, rfl, hdec2⟩ := append_split_of_not_head
        (fun ev => ∃ a, ev = MixEvent.combineCall a) ev1 ev2 pre post _ hdec
        ⟨args, rfl⟩
        (by intro a ha hP
            obtain ⟨ar, rfl⟩ := hP
            obtain ⟨p, hp⟩ := hev1 _ ha
            cases hp)
      obtain ⟨hb, hok⟩ := runStages_combine_after env _ m0 _ res ev2 hrs
        pre2 args post hdec2 kind input hk hkin
      exact ⟨build_temp_args kind input (temp_root_of dataDir env.timestampMillis),
        List.mem_append_right _ hb, hok⟩
    · intro kind args hmem e herr
      have hmem2 : MixEvent.buildCall kind args ∈ ev2 := by
        rcases List.mem_append.mp hmem with h1 | h2
        · obtain ⟨p, hp⟩ := hev1 _ h1
          cases hp
        · exact h2
      obtain ⟨hres, hnc⟩ := runStages_build_fail env _ m0 _ res ev2 hrs
        kind args hmem2 e herr
      refine ⟨hres, ?_⟩
      intro cargs hc
      rcases List.mem_append.mp hc with h1 | h2
      · obtain ⟨p, hp⟩ := hev1 _ h1
        cases hp
      · exact hnc cargs h2
    · intro kind args args' h1 h2
      have h1b : MixEvent.buildCall kind args ∈ ev2 := by
        rcases List.mem_append.mp h1 with hx | hx
        · obtain ⟨p, hp⟩ := hev1 _ hx
          cases hp
        · exact hx
      have h2b : MixEvent.buildCall kind args' ∈ ev2 := by
        rcases List.mem_append.mp h2 with hx | hx
        · obtain ⟨p, hp⟩ := hev1 _ hx
          cases hp
        · exact hx
      exact runStages_build_unique env _ m0 _ res ev2 hrs kind args args' h1b h2b

/-- C7: the outcome of a mix never depends on whether the removals succeed
(the removal oracle is unobservable); on success every Stage 1 intermediate
artifact (the `-o` target of a build invocation) is removed and every removal
targets such an artifact, while the temporary directory itself is not
removed; a failed mix attempts no removal. -/
theorem cleanup_best_effort :
    (∀ (env : MixEnv) (f g : String → Option String) (inputs : List MixTrackInput)
        (outp : String),
      mix_media_tracks { env with removeResult := f } inputs outp
        = mix_media_tracks { env with removeResult := g } inputs outp) ∧
    (∀ (env : MixEnv) (inputs : List MixTrackInput) (outp o : String)
        (evs : List MixEvent),
      mix_media_tracks env inputs outp = (.ok o, evs) →
      (∀ kind args, MixEvent.buildCall kind args ∈ evs →
        ∃ p, List.get? args 1 = some p ∧ MixEvent.removeFile p ∈ evs) ∧
      (∀ p, MixEvent.removeFile p ∈ evs →
        ∃ kind args, MixEvent.buildCall kind args ∈ evs ∧ List.get? args 1 = some p) ∧
      (∀ dataDir, env.appDataDir = .ok dataDir →
        MixEvent.removeFile (temp_root_of dataDir env.timestampMillis) ∉ evs)) ∧
    (∀ (env : MixEnv) (inputs : List MixTrackInput) (outp e : String)
        (evs : List MixEvent),
      mix_media_tracks env inputs outp = (.error e, evs) →
      ∀ p, MixEvent.removeFile p ∉ evs) := by
  refine ⟨fun env f g inputs outp => rfl, ?_, ?_⟩
  · intro env inputs outp o evs h
    rcases mix_cases env inputs outp _ evs h with ⟨hcd, e, he⟩ |
      ⟨ev1, m0, dataDir0, res2, ev2, rfl, hev1, hg0, had, hrs, hres⟩
    · cases he
    · obtain rfl : res2 = .ok o := hres.symm
      obtain ⟨hfwd, hbwd, hne⟩ := runStages_ok_cleanup env _ m0 _ o ev2 hrs
      refine ⟨?_, ?_, ?_⟩
      · intro kind args hmem
        have hmem2 : MixEvent.buildCall kind args ∈ ev2 := by
          rcases List.mem_append.mp hmem with hx | hx
          · obtain ⟨p, hp⟩ := hev1 _ hx
            cases hp
          · exact hx
        obtain ⟨p, hget, hrm⟩ := hfwd kind args hmem2
        exact ⟨p, hget, List.mem_append_right _ hrm⟩
      · intro p hp
        have hp2 : MixEvent.removeFile p ∈ ev2 := by
          rcases List.mem_append.mp hp with hx | hx
          · obtain ⟨q, hq⟩ := hev1 _ hx
            cases hq
          · exact hx
        obtain ⟨kind, args, hb, hget⟩ := hbwd p hp2
        exact ⟨kind, args, List.mem_append_right _ hb, hget⟩
      · intro dataDir hdd hp
        obtain rfl : dataDir = dataDir0 := (Except.ok.inj (had.symm.trans hdd)).symm
        have hp2 : MixEvent.removeFile (temp_root_of dataDir env.timestampMillis) ∈ ev2 := by
          rcases List.mem_append.mp hp with hx | hx
          · obtain ⟨q, hq⟩ := hev1 _ hx
            cases hq
          · exact hx
        exact hne _ hp2 rfl
  · intro env inputs outp e evs h p hp
    rcases mix_cases env inputs outp _ evs h with ⟨hcd, e0, he⟩ |
      ⟨ev1, m0, dataDir0, res2, ev2, rfl, hev1, hg0, had, hrs, hres⟩
    · obtain ⟨q, hq⟩ := hcd _ hp
      cases hq
    · obtain rfl : res2 = .error e := hres.symm
      have hp2 : MixEvent.removeFile p ∈ ev2 := by
        rcases List.mem_append.mp hp with hx | hx
        · obtain ⟨q, hq⟩ := hev1 _ hx
          cases hq
        · exact hx
      exact runStages_error_no_remove env _ m0 _ e ev2 hrs p hp2

/-- Witness for C6: in a concrete successful mix the combine event is
preceded by the successful video Stage 1 invocation. -/
theorem stage2_gated_witness :
    ∃ bargs, MixEvent.buildCall "video" bargs ∈ c6Pre ∧
      run_mkvmerge c6Env.runTool bargs = .ok () :=
  (stage2_gated_on_stage1 c6Env c6Inputs "/out/x.mkv" (.ok "/out/x.mkv")
      (c6Pre ++ MixEvent.combineCall c6Margs :: c6Post) rfl).1
    c6Pre c6Margs c6Post rfl c6M rfl "video" c6Input rfl (by decide)

/-- Witness for C7: in the same successful mix the video intermediate
artifact is removed afterwards. -/
theorem cleanup_best_effort_witness :
    ∃ p, List.get? (build_temp_args "video" c6Input c6Tr) 1 = some p ∧
      MixEvent.removeFile p ∈ (c6Pre ++ MixEvent.combineCall c6Margs :: c6Post) :=
  (cleanup_best_effort.2.1 c6Env c6Inputs "/out/x.mkv" "/out/x.mkv"
      (c6Pre ++ MixEvent.combineCall c6Margs :: c6Post) rfl).1
    "video" (build_temp_args "video" c6Input c6Tr) (by decide)

/-- With sufficient fuel, `Nat.toDigitsCore` computes `digitsRep`. -/
theorem toDigitsCore_eq_digitsRep :
    ∀ (fuel n : Nat) (l : List Char), n < fuel →
      Nat.toDigitsCore 10 fuel n l = digitsRep n ++ l := by
  intro fuel
  induction fuel with
  | zero => intro n l h; omega
  | succ f ih =>
    intro n l h
    by_cases hlt : n < 10
    · have h10 : n / 10 = 0 := Nat.div_eq_of_lt hlt
      rw [Nat.toDigitsCore]
      simp only [h10, if_true, eq_self_iff_true]
      rw [digitsRep]
      simp [hlt, Nat.mod_eq_of_lt hlt]
    · have hge : 10 ≤ n := by omega
      have h10 : ¬ n / 10 = 0 := by
        have h1 : 1 ≤ n / 10 := (Nat.one_le_div_iff (by omega)).mpr hge
        omega
      have hlt2 : n / 10 < f := by
        have h2 := @Nat.div_lt_self n 10 (by omega) (by omega)
        omega
      rw [Nat.toDigitsCore]
      simp only [h10, if_false]
      rw [ih (n / 10) _ hlt2]
      conv_rhs => rw [digitsRep]
      rw [if_neg hlt]
      simp

/-- The printed form of a natural number is its digit list. -/
theorem repr_eq_digitsRep (n : Nat) : Nat.repr n = (digitsRep n).asString := by
  unfold Nat.repr Nat.toDigits
  rw [toDigitsCore_eq_digitsRep (n + 1) n [] (Nat.lt_succ_self n)]
  simp

/-- Parsing after appending one digit. -/
theorem listVal_append (l : List Char) (c : Char) :
    listVal (l ++ [c]) = 10 * listVal l + digitVal c := by
  simp [listVal, List.foldl_append]

/-- Digit characters round-trip through their value. -/
theorem digitVal_digitChar : ∀ d, d < 10 → digitVal (Nat.digitChar d) = d := by decide

/-- The digit list of a number parses back to the number. -/
theorem listVal_digitsRep (n : Nat) : listVal (digitsRep n) = n := by
  induction n using Nat.strong_induction_on with
  | _ n ih =>
    rw [digitsRep]
    split
    · rename_i h
      simp [listVal, digitVal_digitChar n h]
    · rename_i h
      rw [listVal_append,
        ih (n / 10) (Nat.div_lt_self (by omega) (by omega)),
        digitVal_digitChar _ (Nat.mod_lt n (by omega))]
      omega

/-- Digit lists are never empty. -/
theorem digitsRep_ne_nil (n : Nat) : digitsRep n ≠ [] := by
  rw [digitsRep]
  split <;> simp

/-- The first character of a digit list is a decimal digit character. -/
theorem digitsRep_head_digit (n : Nat) :
    ∃ d, d < 10 ∧ (digitsRep n).head? = some (Nat.digitChar d) := by
  induction n using Nat.strong_induction_on with
  | _ n ih =>
    rw [digitsRep]
    split
    · rename_i h
      exact ⟨n, h, rfl⟩
    · rename_i h
      obtain ⟨d, hd, hh⟩ := ih (n / 10) (Nat.div_lt_self (by omega) (by omega))
      rcases hrep : digitsRep (n / 10) with _ | ⟨c, tl⟩
      · exact absurd hrep (digitsRep_ne_nil _)
      · refine ⟨d, hd, ?_⟩
        rw [hrep] at hh
        simpa using hh

/-- Decimal printing of natural numbers is injective. -/
theorem natRepr_injective {a b : Nat} (h : Nat.repr a = Nat.repr b) : a = b := by
  rw [repr_eq_digitsRep, repr_eq_digitsRep] at h
  have hd : digitsRep a = digitsRep b := by
    have hdata := congrArg String.data h
    simpa [List.asString] using hdata
  have hv := congrArg listVal hd
  rwa [listVal_digitsRep, listVal_digitsRep] at hv

/-- The printed form of a natural number never starts with a minus sign. -/
theorem natRepr_not_minus (n : Nat) :
    ∀ t, (Nat.repr n).data ≠ '-' :: t := by
  intro t hct
  rw [repr_eq_digitsRep] at hct
  obtain ⟨d, hd, hh⟩ := digitsRep_head_digit n
  have hdata : (digitsRep n) = '-' :: t := by simpa [List.asString] using hct
  rw [hdata] at hh
  simp only [List.head?_cons, Option.some.injEq] at hh
  have hne : ∀ d, d < 10 → Nat.digitChar d ≠ '-' := by decide
  exact hne d hd hh.symm

/-- Character data of the printed form of an integer. -/
theorem int_toString_eq (a : Int) :
    toString a = match a with
      | .ofNat m => Nat.repr m
      | .negSucc m => "-" ++ Nat.repr (m + 1) := by
  cases a <;> rfl

/-- Decimal printing of integers is injective. -/
theorem intToString_injective {a b : Int} (h : toString a = toString b) : a = b := by
  rw [int_toString_eq, int_toString_eq] at h
  rcases a with m | m <;> rcases b with k | k
  · exact congrArg Int.ofNat (natRepr_injective h)
  · exact absurd (congrArg String.data h)
      (by rw [str_data_append]
          exact fun hc => natRepr_not_minus m _ (by simpa using hc))
  · exact absurd (congrArg String.data h.symm)
      (by rw [str_data_append]
          exact fun hc => natRepr_not_minus k _ (by simpa using hc))
  · have hdata := congrArg String.data h
    rw [str_data_append, str_data_append] at hdata
    have hk : Nat.repr (m + 1) = Nat.repr (k + 1) :=
      String.ext (List.append_cancel_left hdata)
    have hmk := natRepr_injective hk
    exact congrArg Int.negSucc (by omega)

/-- C2 counterexample: two different mix calls that observe the same
millisecond timestamp create the same temporary directory, so distinctness
of the temporary paths of concurrent mixes is not guaranteed. -/
theorem temp_dir_collision_counterexample :
    c6Inputs ≠ c2InputsB ∧
    MixEvent.createDirAll (temp_root_of "/data" 42)
      ∈ (mix_media_tracks c6Env c6Inputs "/out/x.mkv").2 ∧
    MixEvent.createDirAll (temp_root_of "/data" 42)
      ∈ (mix_media_tracks c6Env c2InputsB "/out/y.mkv").2 :=
  ⟨by decide, by decide, by decide⟩

/-- C2 (amended): every mix call creates one temporary directory before any
stage runs, named by the observed millisecond timestamp; two mix calls
observing distinct timestamps get distinct directory paths, but calls
sharing a millisecond share the path. -/
theorem temp_root_distinct_for_distinct_timestamps
    (d : String) (t1 t2 : Int) (h : t1 ≠ t2) :
    temp_root_of d t1 ≠ temp_root_of d t2 := by
  intro he
  apply h
  apply intToString_injective
  have hdata := congrArg String.data he
  unfold temp_root_of at hdata
  rw [str_data_append, str_data_append, str_data_append, str_data_append] at hdata
  rw [List.append_assoc, List.append_assoc] at hdata
  have h1 := List.append_cancel_left hdata
  have h2 := List.append_cancel_left h1
  exact String.ext h2

/-- Witness for C2 (amended) at two concrete timestamps. -/
theorem temp_root_distinct_witness :
    temp_root_of "/data" 41 ≠ temp_root_of "/data" 42 :=
  temp_root_distinct_for_distinct_timestamps "/data" 41 42 (by decide)

end HanamiMedia
